import Mathlib

/-!
Shallow embedding of the lobby session server of this repository
(`src/unnamed/part_001` server portion, and its sibling variant
`src/server.js`, whose dice evaluator, name dedup, join, password and
encounter code is textually identical).  JavaScript strings are modelled
as Lean `String` manipulated through their character lists, JS `Map`s as
insertion-ordered association lists, JS `Set`s as duplicate-free lists
grown by a membership-checking insert, `null`/`undefined` as `Option`.
`Math.random()`-driven die throws are modelled by an explicit random
source `rand : Nat → Nat`, the i-th sample of
`Math.floor(Math.random()*sides)` being `rand i % sides` (a value in
`[0, sides-1]`, as in JS; for `sides = 0` JS yields `0`).  Timestamps
(`Date.now()`, `nowISO`) carry no information used by any control flow
and are dropped.  Password hashing (`crypto.scryptSync`) is outside the
modelled core (the spec treats it as an opaque credential check); it is
modelled by an injective stand-in whose value never influences any
verified property.
-/

namespace DnD

/-- JS `\s` (whitespace class), restricted to the ASCII whitespace that can
actually occur in the modelled payloads. -/
def wsp (c : Char) : Bool :=
  c = ' ' ∨ c = '\t' ∨ c = '\n' ∨ c = '\r' ∨ c = '\x0b' ∨ c = '\x0c'

/-- JS `String.prototype.trim` on the character list. -/
def trimL (l : List Char) : List Char :=
  ((l.dropWhile wsp).reverse.dropWhile wsp).reverse

/-- `safe(s, max)` from the source: `String(s ?? '').trim().slice(0, max)`. -/
def safe (max : Nat) (s : String) : String :=
  ⟨(trimL s.data).take max⟩

/-- `.replace(/\s+/g,'')` from `rollAdvanced`. -/
def stripWs (s : String) : String :=
  ⟨s.data.filter (fun c => ¬ wsp c)⟩

/-- JS `toLowerCase` (ASCII range, as exercised by the dice grammar). -/
def lowerStr (s : String) : String :=
  ⟨s.data.map Char.toLower⟩

/-- `clamp(n, a, b)` from the source: `Math.max(a, Math.min(b, n))`. -/
def clampI (a b n : Int) : Int := max a (min b n)

/-- Digit-run value, as `parseInt` computes it on a digit string. -/
def digitsToNat (l : List Char) : Nat :=
  l.foldl (fun a c => 10 * a + (c.toNat - 48)) 0

-- ===== Dice (`rollAdvanced`, identical in all three server variants) =====

/-- Match data of `DICE_ADV = /^(\d*)d(\d+)(k[hl](\d+))?([+\-]\d+)?$/i`:
`countRaw` is `m[1]` (`none` when the digit run is empty), `sides` is
`m[2]`, `keep` is the optional group with `true` for `kh`, `modifier` is
`m[5]` (0 when absent, as `parseInt` then produces in the source). -/
structure DiceMatch where
  countRaw : Option Nat
  sides : Nat
  keep : Option (Bool × Nat)
  modifier : Int
  deriving Repr, DecidableEq

/-- Deterministic matcher for `DICE_ADV` (all alternation in the regex is
between disjoint first characters, and every `\d+`/`\d*` is followed by a
non-digit, so greedy matching never backtracks). -/
def parseDice (s : String) : Option DiceMatch :=
  let cs := s.data
  let cnt := cs.takeWhile Char.isDigit
  match cs.dropWhile Char.isDigit with
  | 'd' :: r2 =>
    let sd := r2.takeWhile Char.isDigit
    let r3 := r2.dropWhile Char.isDigit
    if sd.isEmpty then none else
    let keepStep : Option (Option (Bool × Nat) × List Char) :=
      match r3 with
      | 'k' :: 'h' :: r4 =>
        let kd := r4.takeWhile Char.isDigit
        if kd.isEmpty then none else some (some (true, digitsToNat kd), r4.dropWhile Char.isDigit)
      | 'k' :: 'l' :: r4 =>
        let kd := r4.takeWhile Char.isDigit
        if kd.isEmpty then none else some (some (false, digitsToNat kd), r4.dropWhile Char.isDigit)
      | 'k' :: _ => none
      | _ => some (none, r3)
    match keepStep with
    | none => none
    | some (keep, r5) =>
      match r5 with
      | [] => some ⟨if cnt.isEmpty then none else some (digitsToNat cnt), digitsToNat sd, keep, 0⟩
      | '+' :: md =>
        if md ≠ [] ∧ md.all Char.isDigit then
          some ⟨if cnt.isEmpty then none else some (digitsToNat cnt), digitsToNat sd, keep,
                (digitsToNat md : Int)⟩
        else none
      | '-' :: md =>
        if md ≠ [] ∧ md.all Char.isDigit then
          some ⟨if cnt.isEmpty then none else some (digitsToNat cnt), digitsToNat sd, keep,
                -(digitsToNat md : Int)⟩
        else none
      | _ => none
  | _ => none

/-- Result object of `rollAdvanced`. -/
structure RollRes where
  expression : String
  rolls : List Nat
  used : List Nat
  modifier : Int
  total : Int
  deriving Repr, DecidableEq

def invalidMsg : String := "Invalid dice. Try d20, 3d6+2, 4d6kh3, adv/dis."
def tooBigMsg : String := "Too big (<=100 dice, <=1000 sides)."
def keepMsg : String := "Keep out of range."

/-- The guard `keepN && (keepN < 1 || keepN > count)` from the source: a
`keepN` of `0` is falsy in JS, so only `keepN ≥ 1` ever trips the check,
and for those only `keepN > count` can hold. -/
def keepOutOfRange (keep : Option (Bool × Nat)) (count : Nat) : Bool :=
  match keep with
  | some (_, n) => n != 0 && decide (count < n)
  | none => false

/-- Descending sort used for `kh` (`used.sort((a,b)=>b-a)`). -/
def sortDescN (l : List Nat) : List Nat := List.insertionSort (fun a b => b ≤ a) l

/-- Ascending sort used for `kl` (`used.sort((a,b)=>a-b)`). -/
def sortAscN (l : List Nat) : List Nat := List.insertionSort (fun a b => a ≤ b) l

/-- The raw die throws: `1 + Math.floor(Math.random()*sides)`, `count` times. -/
def rollDice (rand : Nat → Nat) (count sides : Nat) : List Nat :=
  (List.range count).map (fun i => 1 + (if sides = 0 then 0 else rand i % sides))

/-- The normalisation done at the top of `rollAdvanced`:
`safe(exprRaw, 40).replace(/\s+/g,'').toLowerCase()`. -/
def normExpr (s : String) : String := lowerStr (stripWs (safe 40 s))

/-- Body of `rollAdvanced` past the `adv`/`dis` alias rewriting. -/
def rollCore (rand : Nat → Nat) (exprRaw : String) : Except String RollRes :=
  match parseDice (normExpr exprRaw) with
  | none => .error invalidMsg
  | some m =>
    let count := max 1 (m.countRaw.getD 1)
    let sides := m.sides
    if count > 100 ∨ sides > 1000 then .error tooBigMsg
    else if keepOutOfRange m.keep count then .error keepMsg
    else
      let rolls := rollDice rand count sides
      let used := match m.keep with
        | some (hi, n) =>
          if n = 0 then rolls
          else (if hi then sortDescN rolls else sortAscN rolls).take n
        | none => rolls
      .ok ⟨exprRaw, rolls, used, m.modifier, (used.sum : Int) + m.modifier⟩

/-- `rollAdvanced` from the source.  The alias branches re-enter the
function on a literal that is itself not an alias, hence `rollCore`. -/
def rollAdvanced (rand : Nat → Nat) (exprRaw : String) : Except String RollRes :=
  let expr := normExpr exprRaw
  if expr = "adv" ∨ expr = "d20adv" then rollCore rand "2d20kh1"
  else if expr = "dis" ∨ expr = "d20dis" then rollCore rand "2d20kl1"
  else rollCore rand exprRaw

-- ===== Decimal digits (support for `${base}${i}` in `uniqueName`) =====

/-- Reference decimal print of a natural number, shown below to agree with
`Nat.repr` and used only to reason about it. -/
def natDigits (n : Nat) : List Char :=
  if h : n < 10 then [Nat.digitChar n]
  else natDigits (n / 10) ++ [Nat.digitChar (n % 10)]
  decreasing_by exact Nat.div_lt_self (by omega) (by omega)

/-- Value of a decimal digit character. -/
def digitVal (c : Char) : Nat := c.toNat - 48

/-- Value of a decimal digit string. -/
def valL (l : List Char) : Nat := l.foldl (fun a c => 10 * a + digitVal c) 0

-- ===== Data model (`ensureLobby` state shape) =====

/-- A scene choice; the source field `to` is a reserved word in Lean and is
rendered `toSceneId`. -/
structure Choice where
  id : String
  text : String
  toSceneId : String
  deriving Repr, DecidableEq

structure Scene where
  id : String
  title : String
  content : String
  choices : List Choice
  deriving Repr, DecidableEq

/-- `settings.consent.pending`; `requestedAt` (a timestamp) is dropped. -/
structure Pending where
  choiceId : String
  text : String
  toSceneId : String
  approvals : List String
  deriving Repr, DecidableEq

structure Settings where
  lockedUntilStart : Bool
  campaignStarted : Bool
  requireCharacter : Bool
  pending : Option Pending
  deriving Repr, DecidableEq

structure Campaign where
  title : String
  summary : String
  scenes : List Scene
  currentSceneId : String
  handouts : List (String × String × String)
  quests : List (String × String × Bool)
  notes : List (String × String)
  deriving Repr, DecidableEq

structure EncEntry where
  name : String
  init : Int
  deriving Repr, DecidableEq

structure Encounter where
  active : Bool
  order : List EncEntry
  turnIndex : Nat
  deriving Repr, DecidableEq

structure Token where
  id : String
  name : String
  x : Int
  y : Int
  color : String
  owner : String
  deriving Repr, DecidableEq

structure GameMap where
  w : Nat
  h : Nat
  tiles : List (List Nat)
  tokens : List Token
  deriving Repr, DecidableEq

/-- One lobby of `memory.lobbies`.  `characters` keeps only the sheet keys
(the sheet bodies never influence a modelled operation); `createdAt` is
dropped. -/
structure Lobby where
  gm : Option String
  passwordHash : Option String
  bans : List String
  users : List (String × String)
  macros : List (String × List (String × String))
  messages : List (String × String)
  rolls : List (String × RollRes)
  characters : List String
  encounter : Encounter
  map : GameMap
  campaign : Campaign
  settings : Settings
  deriving Repr, DecidableEq

/-- Everything a handler emits (socket/unicast and room broadcasts), in
emission order.  Data-free broadcasts of derived views (`state`,
`map_state`, `campaign_state`) are recorded as markers since their payload
is a function of the resulting lobby. -/
inductive Eff where
  | errorTo (text : String)
  | errorToSid (sid text : String)
  | systemTo (text : String)
  | systemAll (text : String)
  | chatAll (user text : String)
  | chatTo (sid user text : String)
  | rollAll (user : String) (r : RollRes)
  | state
  | mapState
  | campaignState
  | mapPing (x y : Int) (byName : String)
  | joined (gm : Option String)
  | characterRequired (sid reason : String)
  | campaignStarted (sceneId : String)
  | choiceRequested (sceneId choiceId text target requestedBy : String)
      (players : List String)
  | macroList (m : List (String × String))
  | consentForce
  | kickLeave (sid : String)
  deriving Repr, DecidableEq

-- ===== Small state helpers =====

/-- JS `Set.add`: insertion-ordered, ignores an element already present. -/
def setInsert (l : List String) (x : String) : List String :=
  if x ∈ l then l else l ++ [x]

/-- JS `Set.delete`. -/
def setDelete (l : List String) (x : String) : List String :=
  l.filter (fun y => !decide (y = x))

/-- JS `Map.set`: update in place if the key exists, else append. -/
def upsertA {β : Type} (m : List (String × β)) (k : String) (v : β) : List (String × β) :=
  if m.any (fun p => decide (p.1 = k)) then
    m.map (fun p => if p.1 = k then (k, v) else p)
  else m ++ [(k, v)]

/-- JS `Map.delete` (keys are unique by construction). -/
def delA {β : Type} (m : List (String × β)) (k : String) : List (String × β) :=
  m.filter (fun p => !decide (p.1 = k))

/-- JS object assignment `tokens[tid] = tok`. -/
def upsertTok (ts : List Token) (tid : String) (tok : Token) : List Token :=
  if ts.any (fun t => decide (t.id = tid)) then
    ts.map (fun t => if t.id = tid then tok else t)
  else ts ++ [tok]

/-- `String.prototype.trim`. -/
def jsTrim (s : String) : String := ⟨trimL s.data⟩

/-- JS `String.prototype.split(sep)` for a one-character separator, on the
character list (`"a  b".split(' ') = ["a", "", "b"]`, `"".split(' ') = [""]`). -/
def splitChar (sep : Char) : List Char → List (List Char)
  | [] => [[]]
  | c :: rest =>
    if c = sep then [] :: splitChar sep rest
    else
      match splitChar sep rest with
      | [] => [[c]]
      | h :: t => (c :: h) :: t

/-- JS `Array.prototype.join(' ')` on character lists. -/
def joinSp : List (List Char) → List Char
  | [] => []
  | [x] => x
  | x :: xs => x ++ ' ' :: joinSp xs

/-- `isGM(L)` — `L.gm === username`. -/
def isGM (L : Lobby) (uname : String) : Prop := L.gm = some uname

instance (L : Lobby) (u : String) : Decidable (isGM L u) := by
  unfold isGM; infer_instance

/-- `isLockedForPlayers(L)` — `L.settings.lockedUntilStart && !L.settings.campaignStarted`. -/
def isLockedForPlayers (L : Lobby) : Prop :=
  L.settings.lockedUntilStart = true ∧ L.settings.campaignStarted = false

instance (L : Lobby) : Decidable (isLockedForPlayers L) := by
  unfold isLockedForPlayers; infer_instance

def lockedMsg : String := "Campaign not started by GM yet."

/-- The connected display names, `[...L.users.values()].map(u => u.name)`. -/
def userNames (L : Lobby) : List String := L.users.map (fun p => p.2)

/-- `[...].map(u=>u.name).filter(n => n !== L.gm)` — the quorum set. -/
def nonGMNames (L : Lobby) : List String :=
  (userNames L).filter (fun n => !decide (some n = L.gm))

/-- Stand-in for `hashPass` (salted scrypt in the source, out of the
modelled core); injective, and no verified property inspects its value. -/
def hashPass (plain : String) : String := plain

/-- Stand-in for `verifyPass`: the credential matches iff it was derived
from the same plaintext. -/
def verifyPass (plain stored : String) : Bool := decide (hashPass plain = stored)

-- ===== Name dedup (`uniqueName`, identical in all variants) =====

/-- The `while` loop of `uniqueName`: starting at `i`, first suffix whose
concatenation is unused; `fuel` bounds the search (the loop always exits
within `names.length + 1` probes, proved below). -/
def findSuffix (names : List String) (base : String) : Nat → Nat → Nat
  | 0, i => i
  | fuel + 1, i =>
    if (base ++ Nat.repr i) ∈ names then findSuffix names base fuel (i + 1) else i

/-- `uniqueName(L, base)` over the list of connected display names. -/
def uniqueName (names : List String) (base : String) : String :=
  let nm := if base = "" then "Anon" else base
  if nm ∈ names then base ++ Nat.repr (findSuffix names base (names.length + 1) 2)
  else nm

-- ===== join / disconnect =====

/-- Tail of `join_lobby` after the ban/password/GM block: name dedup,
membership record, and the notification volley. -/
def joinProceed (L : Lobby) (lname sid uname : String) : Lobby × List Eff :=
  let finalName := uniqueName (userNames L) uname
  let L1 := {L with users := upsertA L.users sid finalName}
  (L1,
   [Eff.joined L1.gm, Eff.systemAll (finalName ++ " joined " ++ lname)]
   ++ (if L1.settings.requireCharacter ∧ ¬ finalName ∈ L1.characters then
         [Eff.characterRequired sid "GM requires a character before playing."]
       else [])
   ++ [Eff.state, Eff.mapState])

/-- `join_lobby`.  An absent or empty password is falsy in JS, so the
payload password is a plain string with `""` for "not supplied". -/
def joinLobby (L : Lobby) (lname sid uname pw : String) : Lobby × List Eff :=
  if lowerStr uname ∈ L.bans then (L, [Eff.errorTo "You are banned from this lobby."])
  else
    match L.passwordHash with
    | some h =>
      if pw ≠ "" ∧ verifyPass pw h then joinProceed L lname sid uname
      else (L, [Eff.errorTo "Lobby is locked (wrong password)."])
    | none =>
      if pw ≠ "" then
        joinProceed {L with passwordHash := some (hashPass pw),
                            gm := if L.gm = none then some uname else L.gm} lname sid uname
      else if L.gm = none then
        joinProceed {L with gm := some uname} lname sid uname
      else joinProceed L lname sid uname

/-- `disconnect` handler (also what a player's leave performs). -/
def disconnectLobby (L : Lobby) (sid uname : String) : Lobby × List Eff :=
  ({L with users := delA L.users sid}, [Eff.systemAll (uname ++ " left"), Eff.state])

-- ===== Slash-command argument grammars =====

/-- `^(\S+)\s+([\s\S]+)$` after the optional `@` of `/w` (with the one-step
backtracking a trailing all-whitespace remainder forces on `\s+`). -/
def whisperCore (cs : List Char) : Option (String × String) :=
  let tgt := cs.takeWhile (fun c => ¬ wsp c)
  let r := cs.dropWhile (fun c => ¬ wsp c)
  if tgt.isEmpty then none else
  let sp := r.takeWhile wsp
  let msg := r.dropWhile wsp
  if sp.isEmpty then none
  else if msg.isEmpty then
    if 2 ≤ sp.length then some (⟨tgt⟩, ⟨[sp.getLastD ' ']⟩) else none
  else some (⟨tgt⟩, ⟨msg⟩)

/-- `/^@?(\S+)\s+([\s\S]+)$/` for `/w`: the optional `@` is consumed
greedily and given back when the rest cannot match. -/
def parseWhisper (s : String) : Option (String × String) :=
  match s.data with
  | '@' :: t => (whisperCore t).orElse (fun _ => whisperCore ('@' :: t))
  | l => whisperCore l

/-- JS `\w`. -/
def wordChar (c : Char) : Bool := c.isAlphanum ∨ c = '_'

/-- `/^(\w+)\s*=\s*([\s\S]+)$/` for `/macro add`. -/
def parseMacroAdd (s : String) : Option (String × String) :=
  let cs := s.data
  let nm := cs.takeWhile wordChar
  let r := cs.dropWhile wordChar
  if nm.isEmpty then none else
  match r.dropWhile wsp with
  | '=' :: r2 =>
    let sp := r2.takeWhile wsp
    let ex := r2.dropWhile wsp
    if ex.isEmpty then
      if sp.isEmpty then none else some (⟨nm⟩, ⟨[sp.getLastD ' ']⟩)
    else some (⟨nm⟩, ⟨ex⟩)
  | _ => none

/-- `/^(\S+)\s+(-?\d+)$/` for `/setinit`. -/
def parseSetInit (s : String) : Option (String × Int) :=
  let cs := s.data
  let nm := cs.takeWhile (fun c => ¬ wsp c)
  let r := cs.dropWhile (fun c => ¬ wsp c)
  if nm.isEmpty then none else
  let sp := r.takeWhile wsp
  let num := r.dropWhile wsp
  if sp.isEmpty then none else
  match num with
  | '-' :: ds =>
    if ds ≠ [] ∧ ds.all Char.isDigit then some (⟨nm⟩, -(digitsToNat ds : Int)) else none
  | ds =>
    if ds ≠ [] ∧ ds.all Char.isDigit then some (⟨nm⟩, (digitsToNat ds : Int)) else none

/-- Continuation of `/^(title|summary)\s+([\s\S]+)$/` after the keyword. -/
def parseCampRest (isTitle : Bool) (r : List Char) : Option (Bool × String) :=
  let sp := r.takeWhile wsp
  let rest := r.dropWhile wsp
  if sp.isEmpty then none
  else if rest.isEmpty then
    if 2 ≤ sp.length then some (isTitle, ⟨[sp.getLastD ' ']⟩) else none
  else some (isTitle, ⟨rest⟩)

/-- `/^(title|summary)\s+([\s\S]+)$/` for `/camp`. -/
def parseCamp (s : String) : Option (Bool × String) :=
  let cs := s.data
  if cs.take 5 = "title".data then parseCampRest true (cs.drop 5)
  else if cs.take 7 = "summary".data then parseCampRest false (cs.drop 7)
  else none

/-- `/^add\s+([^|]+)\|([\s\S]+)$/` for `/scene add`. -/
def parseSceneAdd (s : String) : Option (String × String) :=
  match s.data with
  | 'a' :: 'd' :: 'd' :: r =>
    let sp := r.takeWhile wsp
    let rest := r.dropWhile wsp
    if sp.isEmpty then none else
    let title := rest.takeWhile (fun c => ¬ c = '|')
    match rest.dropWhile (fun c => ¬ c = '|') with
    | '|' :: content =>
      if content.isEmpty then none
      else if title.isEmpty then
        if 2 ≤ sp.length then some (⟨[sp.getLastD ' ']⟩, ⟨content⟩) else none
      else some (⟨title⟩, ⟨content⟩)
    | _ => none
  | _ => none

/-- `/^set\s+(\S+)$/` for `/scene set`. -/
def parseSceneSet (s : String) : Option String :=
  match s.data with
  | 's' :: 'e' :: 't' :: r =>
    let sp := r.takeWhile wsp
    let rest := r.dropWhile wsp
    if sp.isEmpty ∨ rest.isEmpty then none
    else if rest.any wsp then none
    else some ⟨rest⟩
  | _ => none

-- ===== `handleCommand` =====

def helpText : String :=
  "Commands: /help, /me <action>, /w @name <msg>, /roll <expr>, " ++
  "/macro add name=expr | del name | list, " ++
  "/setpass <pass> (GM on first set), /kick <name> (GM), /ban <name> (GM), /unban <name> (GM), " ++
  "/startencounter (GM), /setinit <name> <n> (GM), /next (GM), /endencounter (GM), " ++
  "Campaign: /camp title <t> (GM), /camp summary <text> (GM), " ++
  "/scene add <title>|<content> (GM), /scene set <sceneId> (GM), " ++
  "/start (GM start campaign), /consent force (GM)"

/-- The `character_required` volley issued when the campaign starts. -/
def charReqEffs (L : Lobby) : List Eff :=
  L.users.filterMap (fun p =>
    if p.2 ∈ L.characters then none
    else some (Eff.characterRequired p.1 "campaign_started"))

/-- `line.slice(1).split(' ')[0].toLowerCase()` — the dispatched command. -/
def cmdOf (line : String) : String :=
  lowerStr ⟨(splitChar ' ' (line.data.drop 1)).headD []⟩

/-- `rest.join(' ').trim()` — the argument string of a slash command. -/
def argOf (line : String) : String :=
  jsTrim ⟨joinSp (splitChar ' ' (line.data.drop 1)).tail⟩

/-- The `/setinit` upsert-and-resort:
`if (i>=0) order[i].init = init; else order.push({name,init});
order.sort((a,b)=>b.init-a.init)` (the entry found by `findIndex` already
carries `name`, so overwriting it with `⟨name, init⟩` is the in-place
`init` update). -/
def setInitOrder (order : List EncEntry) (nm : String) (v : Int) : List EncEntry :=
  let order1 :=
    match order.findIdx? (fun o => decide (o.name = nm)) with
    | some i => order.set i ⟨nm, v⟩
    | none => order ++ [⟨nm, v⟩]
  List.insertionSort (fun a b : EncEntry => b.init ≤ a.init) order1

/-- The slash-command interpreter (`handleCommand` in the source).
`freshId` stands for the `randId('scn')` draw used by `/scene add`. -/
def handleCommand (rand : Nat → Nat) (freshId : String) (L : Lobby)
    (sid uname line : String) : Lobby × List Eff :=
  let argStr := argOf line
  let gm := decide (isGM L uname)
  match cmdOf line with
  | "help" => (L, [Eff.systemTo helpText])
  | "start" =>
    if ¬ gm then (L, [Eff.errorTo "GM only."])
    else if L.settings.campaignStarted then (L, [Eff.errorTo "Already started."])
    else
      let L1 := {L with settings := {L.settings with campaignStarted := true}}
      (L1, [Eff.systemAll "GM started the campaign!",
            Eff.campaignStarted L1.campaign.currentSceneId]
           ++ charReqEffs L1 ++ [Eff.state])
  | "me" =>
    let text := if argStr = "" then "does something dramatic" else argStr
    (L, [Eff.chatAll uname ("*" ++ text ++ "*")])
  | "w" =>
    match parseWhisper argStr with
    | none => (L, [Eff.errorTo "Usage: /w @name message"])
    | some (target, message) =>
      match L.users.find? (fun p => decide (p.2 = target)) with
      | none => (L, [Eff.errorTo "User not found"])
      | some entry =>
        (L, [Eff.chatTo entry.1 ("(whisper) " ++ uname) message,
             Eff.chatTo sid ("(to @" ++ target ++ ")") message])
  | "roll" =>
    if isLockedForPlayers L ∧ ¬ gm then (L, [Eff.errorTo lockedMsg])
    else
      match rollAdvanced rand (if argStr = "" then "d20" else argStr) with
      | .ok res => ({L with rolls := L.rolls ++ [(uname, res)]}, [Eff.rollAll uname res])
      | .error e => (L, [Eff.errorTo e])
  | "macro" =>
    let subParts := splitChar ' ' argStr.data
    let restJoin := jsTrim ⟨joinSp subParts.tail⟩
    let mac := (L.macros.lookup uname).getD []
    match (⟨subParts.headD []⟩ : String) with
    | "add" =>
      match parseMacroAdd restJoin with
      | none => (L, [Eff.errorTo "Use: /macro add name=expr"])
      | some (nm, ex) =>
        ({L with macros := upsertA L.macros uname (upsertA mac nm ex)},
         [Eff.systemTo ("Macro added: " ++ nm ++ " = " ++ ex)])
    | "del" =>
      match subParts.tail.head? with
      | some k =>
        ({L with macros := upsertA L.macros uname (delA mac ⟨k⟩)},
         [Eff.systemTo ("Macro deleted: " ++ (⟨k⟩ : String))])
      | none =>
        ({L with macros := upsertA L.macros uname mac},
         [Eff.systemTo "Macro deleted: undefined"])
    | "list" => (L, [Eff.macroList mac])
    | _ => (L, [Eff.errorTo "Subcommands: add, del, list"])
  | "setpass" =>
    if L.passwordHash.isSome ∧ ¬ gm then (L, [Eff.errorTo "Only GM can change password."])
    else if argStr = "" then (L, [Eff.errorTo "Usage: /setpass <password>"])
    else
      ({L with passwordHash := some (hashPass argStr),
               gm := if L.gm = none then some uname else L.gm},
       [Eff.systemAll "Lobby password set/updated.", Eff.state])
  | "kick" =>
    if ¬ gm then (L, [Eff.errorTo "GM only."])
    else
      let target := safe 24 argStr
      match L.users.find? (fun p => decide (p.2 = target)) with
      | none => (L, [Eff.errorTo "User not found"])
      | some entry =>
        ({L with users := delA L.users entry.1},
         [Eff.errorToSid entry.1 "You were kicked by the GM.", Eff.kickLeave entry.1,
          Eff.systemAll (target ++ " was kicked by the GM."), Eff.state])
  | "ban" =>
    if ¬ gm then (L, [Eff.errorTo "GM only."])
    else
      ({L with bans := setInsert L.bans (lowerStr (safe 24 argStr))},
       [Eff.systemAll (argStr ++ " is banned."), Eff.state])
  | "unban" =>
    if ¬ gm then (L, [Eff.errorTo "GM only."])
    else
      ({L with bans := setDelete L.bans (lowerStr (safe 24 argStr))},
       [Eff.systemAll (argStr ++ " is unbanned."), Eff.state])
  | "startencounter" =>
    if ¬ gm then (L, [Eff.errorTo "GM only."])
    else
      ({L with encounter := {active := true, order := [], turnIndex := 0}},
       [Eff.systemAll "Encounter started. Use /setinit <name> <n>.", Eff.state])
  | "setinit" =>
    if ¬ gm then (L, [Eff.errorTo "GM only."])
    else
      match parseSetInit argStr with
      | none => (L, [Eff.errorTo "Usage: /setinit <name> <number>"])
      | some (nm, init) =>
        ({L with encounter := {L.encounter with order := setInitOrder L.encounter.order nm init}},
         [Eff.systemAll ("Initiative set: " ++ nm ++ " = " ++ toString init), Eff.state])
  | "next" =>
    if ¬ gm then (L, [Eff.errorTo "GM only."])
    else if ¬ L.encounter.active ∨ L.encounter.order.length = 0 then
      (L, [Eff.errorTo "No active encounter."])
    else
      let ti := (L.encounter.turnIndex + 1) % L.encounter.order.length
      ({L with encounter := {L.encounter with turnIndex := ti}},
       [Eff.systemAll ("Turn: " ++ ((L.encounter.order.getD ti ⟨"", 0⟩).name)), Eff.state])
  | "endencounter" =>
    if ¬ gm then (L, [Eff.errorTo "GM only."])
    else
      ({L with encounter := {active := false, order := [], turnIndex := 0}},
       [Eff.systemAll "Encounter ended.", Eff.state])
  | "camp" =>
    match parseCamp argStr with
    | none => (L, [Eff.errorTo "Usage: /camp title <text> | /camp summary <text>"])
    | some (isTitle, text) =>
      if ¬ gm then (L, [Eff.errorTo "GM only."])
      else
        let L1 :=
          if isTitle then {L with campaign := {L.campaign with title := safe 120 text}}
          else {L with campaign := {L.campaign with summary := safe 2000 text}}
        (L1, [Eff.systemAll ("Campaign " ++ (if isTitle then "title" else "summary")
                             ++ " updated."), Eff.state])
  | "scene" =>
    if ¬ gm then (L, [Eff.errorTo "GM only."])
    else
      match parseSceneAdd argStr with
      | some (title, content) =>
        let scene : Scene := {id := freshId, title := safe 120 title,
                              content := safe 4000 content, choices := []}
        let camp1 := {L.campaign with
                       scenes := L.campaign.scenes ++ [scene],
                       currentSceneId := if L.campaign.currentSceneId = "" then scene.id
                                         else L.campaign.currentSceneId}
        ({L with campaign := camp1},
         [Eff.systemAll ("Scene added: " ++ scene.title ++ " (" ++ scene.id ++ ")"), Eff.state])
      | none =>
        match parseSceneSet argStr with
        | some sceneId =>
          if L.campaign.scenes.any (fun s => decide (s.id = sceneId)) then
            ({L with campaign := {L.campaign with currentSceneId := sceneId}},
             [Eff.systemAll ("Scene set: " ++ sceneId), Eff.state])
          else (L, [Eff.errorTo "Scene not found."])
        | none =>
          (L, [Eff.errorTo "Use: /scene add <title>|<content> OR /scene set <sceneId>"])
  | "consent" =>
    if ¬ gm then (L, [Eff.errorTo "GM only."])
    else if jsTrim argStr = "force" then (L, [Eff.consentForce])
    else (L, [Eff.errorTo "Use: /consent force"])
  | _ => (L, [Eff.errorTo "Unknown command. Try /help"])

/-- The lobby with `settings.lockedUntilStart` forced to `b` (used to state
that the GM's operations never depend on the lock flag). -/
def setLockFlag (b : Bool) (L : Lobby) : Lobby :=
  {L with settings := {L.settings with lockedUntilStart := b}}

-- ===== chat / roll socket handlers =====

/-- The `chat` socket handler. -/
def chatHandler (rand : Nat → Nat) (freshId : String) (L : Lobby)
    (sid uname text : String) : Lobby × List Eff :=
  let msg := safe 500 text
  if msg = "" then (L, [])
  else if msg.data.head? = some '/' then handleCommand rand freshId L sid uname msg
  else if isLockedForPlayers L ∧ ¬ isGM L uname then (L, [Eff.errorTo lockedMsg])
  else ({L with messages := L.messages ++ [(uname, msg)]}, [Eff.chatAll uname msg])

/-- The `roll` socket handler (`expression || 'd20'`). -/
def rollHandler (rand : Nat → Nat) (L : Lobby) (uname expression : String) :
    Lobby × List Eff :=
  if isLockedForPlayers L ∧ ¬ isGM L uname then (L, [Eff.errorTo lockedMsg])
  else
    match rollAdvanced rand (if expression = "" then "d20" else expression) with
    | .ok res => ({L with rolls := L.rolls ++ [(uname, res)]}, [Eff.rollAll uname res])
    | .error e => (L, [Eff.errorTo e])

-- ===== Map handlers =====

/-- `parseInt(x,10)||0` on an (already numeric) payload coordinate. -/
def coordOrZero (x : Option Int) : Int := (x.getD 0)

/-- `parseInt(w||20,10)||20`: an absent payload dimension defaults to 20,
and so does `0`, which is falsy in JS. -/
def dimOrDefault (x : Option Int) : Int :=
  match x with
  | none => 20
  | some v => if v = 0 then 20 else v

/-- `L.map.tiles[y]?.[x] ?? 0`. -/
def tileAt (m : GameMap) (x y : Nat) : Nat :=
  (((m.tiles.get? y).getD []).get? x).getD 0

/-- Tile lookup at clamped signed coordinates. -/
def tileAtI (m : GameMap) (x y : Int) : Nat :=
  if x < 0 ∨ y < 0 then 0 else tileAt m x.toNat y.toNat

/-- Is some token already on cell `(x, y)`? -/
def occupied (ts : List Token) (x y : Nat) : Bool :=
  ts.any (fun t => decide (t.x = (x : Int)) && decide (t.y = (y : Int)))

/-- The row-major placement scan of `token_add` (`x=0,y=0` when no cell
qualifies, as the loop's initialisers leave them). -/
def findSpot (m : GameMap) : Nat × Nat :=
  let cells := (List.range m.h).flatMap (fun yy => (List.range m.w).map (fun xx => (xx, yy)))
  (cells.find? (fun c => decide (tileAt m c.1 c.2 = 0) && !occupied m.tokens c.1 c.2)).getD (0, 0)

/-- `map_init`. -/
def mapInit (L : Lobby) (uname : String) (w h : Option Int) : Lobby × List Eff :=
  if ¬ isGM L uname then (L, [Eff.errorTo "GM only."])
  else
    let w1 := (clampI 5 60 (dimOrDefault w)).toNat
    let h1 := (clampI 5 60 (dimOrDefault h)).toNat
    ({L with map := {w := w1, h := h1,
                     tiles := List.replicate h1 (List.replicate w1 0), tokens := []}},
     [Eff.systemAll ("Map set to " ++ toString w1 ++ "×" ++ toString h1), Eff.mapState])

/-- `token_add`; `freshTid` stands for the `t_${Date.now()}_${random}` draw. -/
def tokenAdd (L : Lobby) (uname : String) (id name color : String) (freshTid : String) :
    Lobby × List Eff :=
  if isLockedForPlayers L ∧ ¬ isGM L uname then (L, [Eff.errorTo lockedMsg])
  else
    let tid := safe 40 (if id = "" then freshTid else id)
    let nm := safe 24 (if name = "" then uname else name)
    let spot := findSpot L.map
    let tok : Token := {id := tid, name := nm, x := (spot.1 : Int), y := (spot.2 : Int),
                        color := safe 16 (if color = "" then "#222" else color), owner := uname}
    ({L with map := {L.map with tokens := upsertTok L.map.tokens tid tok}}, [Eff.mapState])

/-- `token_move`. -/
def tokenMove (L : Lobby) (uname tid : String) (x y : Option Int) : Lobby × List Eff :=
  if isLockedForPlayers L ∧ ¬ isGM L uname then (L, [Eff.errorTo lockedMsg])
  else
    match L.map.tokens.find? (fun t => decide (t.id = tid)) with
    | none => (L, [])
    | some tok =>
      if ¬ isGM L uname ∧ ¬ tok.owner = uname then
        (L, [Eff.errorTo "Only owner or GM can move this token."])
      else
        let x1 := clampI 0 ((L.map.w : Int) - 1) (coordOrZero x)
        let y1 := clampI 0 ((L.map.h : Int) - 1) (coordOrZero y)
        if tileAtI L.map x1 y1 = 1 then (L, [])
        else
          let ts1 := L.map.tokens.map (fun t => if t.id = tid then {t with x := x1, y := y1} else t)
          ({L with map := {L.map with tokens := ts1}}, [Eff.mapState])

/-- `token_remove` (an unauthorised non-owner is dropped silently). -/
def tokenRemove (L : Lobby) (uname tid : String) : Lobby × List Eff :=
  if isLockedForPlayers L ∧ ¬ isGM L uname then (L, [Eff.errorTo lockedMsg])
  else
    match L.map.tokens.find? (fun t => decide (t.id = tid)) with
    | none => (L, [])
    | some tok =>
      if ¬ isGM L uname ∧ ¬ tok.owner = uname then (L, [])
      else
        let ts1 := L.map.tokens.filter (fun t => !decide (t.id = tid))
        ({L with map := {L.map with tokens := ts1}}, [Eff.mapState])

/-- `ping` (never mutates the lobby). -/
def pingHandler (L : Lobby) (uname : String) (x y : Option Int) : Lobby × List Eff :=
  if isLockedForPlayers L ∧ ¬ isGM L uname then (L, [Eff.errorTo lockedMsg])
  else
    let x1 := clampI 0 ((L.map.w : Int) - 1) (coordOrZero x)
    let y1 := clampI 0 ((L.map.h : Int) - 1) (coordOrZero y)
    (L, [Eff.mapPing x1 y1 uname])

-- ===== Consent flow =====

/-- `campaign_choice_request`. -/
def choiceRequest (L : Lobby) (uname choiceId : String) : Lobby × List Eff :=
  if ¬ isGM L uname then (L, [Eff.errorTo "GM only."])
  else if ¬ L.settings.campaignStarted then (L, [Eff.errorTo "Start campaign first."])
  else
    match L.campaign.scenes.find? (fun s => decide (s.id = L.campaign.currentSceneId)) with
    | none => (L, [])
    | some scene =>
      match scene.choices.find? (fun c => decide (c.id = choiceId)) with
      | none => (L, [Eff.errorTo "Choice not found."])
      | some choice =>
        let pend : Pending := {choiceId := choice.id, text := choice.text,
                               toSceneId := choice.toSceneId, approvals := []}
        ({L with settings := {L.settings with pending := some pend}},
         [Eff.choiceRequested scene.id choice.id choice.text choice.toSceneId uname
            (nonGMNames L), Eff.state])

/-- `campaign_choice_ack`. -/
def choiceAck (L : Lobby) (uname : String) : Lobby × List Eff :=
  match L.settings.pending with
  | none => (L, [])
  | some p =>
    let p1 := {p with approvals := setInsert p.approvals uname}
    if (nonGMNames L).all (fun n => decide (n ∈ p1.approvals)) then
      match L.campaign.scenes.find? (fun s => decide (s.id = p1.toSceneId)) with
      | some target =>
        ({L with campaign := {L.campaign with currentSceneId := target.id},
                 settings := {L.settings with pending := none}},
         [Eff.systemAll ("Choice accepted: " ++ p1.text), Eff.campaignState, Eff.state])
      | none =>
        ({L with settings := {L.settings with pending := none}}, [Eff.state])
    else
      ({L with settings := {L.settings with pending := some p1}}, [])

/-- `campaign_choice_force`. -/
def choiceForce (L : Lobby) (uname : String) : Lobby × List Eff :=
  if ¬ isGM L uname then (L, [Eff.errorTo "GM only."])
  else
    match L.settings.pending with
    | none => (L, [])
    | some p =>
      match L.campaign.scenes.find? (fun s => decide (s.id = p.toSceneId)) with
      | some target =>
        ({L with campaign := {L.campaign with currentSceneId := target.id},
                 settings := {L.settings with pending := none}},
         [Eff.systemAll ("GM forced proceed: " ++ p.text), Eff.campaignState, Eff.state])
      | none =>
        ({L with settings := {L.settings with pending := none}}, [Eff.state])

/-- The encounter invariant, in the inductive form the operations
actually maintain: distinct combatant names, order sorted descending by
initiative, and `turnIndex < order.length` whenever `order` is non-empty
(with `turnIndex = 0` when it is empty, which `max 1` also captures). -/
def encInvS (e : Encounter) : Prop :=
  (e.order.map EncEntry.name).Nodup ∧
  List.Sorted (fun a b : EncEntry => b.init ≤ a.init) e.order ∧
  e.turnIndex < max 1 e.order.length

-- ===== Order instances for the comparator relations =====

instance : IsTotal Nat (fun a b : Nat => b ≤ a) := ⟨fun a b => le_total b a⟩

instance : IsTrans Nat (fun a b : Nat => b ≤ a) := ⟨fun _ _ _ h1 h2 => le_trans h2 h1⟩

instance : IsTotal Nat (fun a b : Nat => a ≤ b) := ⟨le_total⟩

instance : IsTrans Nat (fun a b : Nat => a ≤ b) := ⟨fun _ _ _ h1 h2 => le_trans h1 h2⟩

instance : IsTotal EncEntry (fun a b : EncEntry => b.init ≤ a.init) :=
  ⟨fun a b => le_total b.init a.init⟩

instance : IsTrans EncEntry (fun a b : EncEntry => b.init ≤ a.init) :=
  ⟨fun _ _ _ h1 h2 => le_trans h2 h1⟩

-- ===== Concrete fixtures (used to instantiate theorems below) =====

/-- The parse of `"4d6kh3"`. -/
def wDice : DiceMatch := ⟨some 4, 6, some (true, 3), 0⟩

def wScene1 : Scene := ⟨"s1", "One", "intro", [⟨"ch1", "go", "s2"⟩, ⟨"chX", "dangle", "zz"⟩]⟩
def wScene2 : Scene := ⟨"s2", "Two", "next", []⟩
def wCampaign : Campaign := ⟨"T", "S", [wScene1, wScene2], "s1", [], [], []⟩
def wMap : GameMap := ⟨5, 5, List.replicate 5 (List.replicate 5 0), []⟩

/-- A small two-member lobby: GM `"Gm"` on socket `k1`, player `"Rin"` on
socket `k2`; campaign started, no pending consent. -/
def baseLobby : Lobby :=
  { gm := some "Gm", passwordHash := none, bans := [],
    users := [("k1", "Gm"), ("k2", "Rin")],
    macros := [], messages := [], rolls := [], characters := [],
    encounter := ⟨false, [], 0⟩, map := wMap, campaign := wCampaign,
    settings := ⟨true, true, true, none⟩ }

/-- `baseLobby` with a pending consent request for choice `ch1`. -/
def pendLobby : Lobby :=
  {baseLobby with settings := ⟨true, true, true, some ⟨"ch1", "go", "s2", []⟩⟩}

/-- A lobby whose only connected member is the GM, with a pending request. -/
def gmOnlyLobby : Lobby :=
  {baseLobby with users := [("k1", "Gm")],
                  settings := ⟨true, true, true, some ⟨"ch1", "go", "s2", []⟩⟩}

/-- `baseLobby` before the campaign started (players locked out). -/
def lockedLobby : Lobby :=
  {baseLobby with settings := ⟨true, false, true, none⟩}

/-- `baseLobby` with an active two-combatant encounter. -/
def encLobby : Lobby :=
  {baseLobby with encounter := ⟨true, [⟨"Sam", 12⟩, ⟨"Rin", 7⟩], 1⟩}

-- ===== Supporting lemmas: decimal printing =====

theorem digitVal_digitChar {d : Nat} (h : d < 10) : digitVal (Nat.digitChar d) = d := by
  interval_cases d <;> rfl

theorem valL_append_singleton (l : List Char) (c : Char) :
    valL (l ++ [c]) = 10 * valL l + digitVal c := by
  unfold valL
  rw [List.foldl_append]
  rfl

theorem valL_natDigits (n : Nat) : valL (natDigits n) = n := by
  induction n using Nat.strong_induction_on with
  | _ n ih =>
    rw [natDigits]
    by_cases h : n < 10
    · simp only [h, dif_pos]
      show 10 * 0 + digitVal (Nat.digitChar n) = n
      rw [digitVal_digitChar h]
      omega
    · simp only [h, dif_neg, not_false_iff]
      rw [valL_append_singleton, ih (n / 10) (Nat.div_lt_self (by omega) (by omega)),
        digitVal_digitChar (Nat.mod_lt n (by omega))]
      omega

theorem toDigitsCore_eq_natDigits :
    ∀ (fuel n : Nat) (ds : List Char), n < fuel →
      Nat.toDigitsCore 10 fuel n ds = natDigits n ++ ds := by
  intro fuel
  induction fuel with
  | zero => omega
  | succ fuel ih =>
    intro n ds h
    show (if n / 10 = 0 then Nat.digitChar (n % 10) :: ds
          else Nat.toDigitsCore 10 fuel (n / 10) (Nat.digitChar (n % 10) :: ds)) =
         natDigits n ++ ds
    by_cases h10 : n / 10 = 0
    · have hn : n < 10 := (Nat.div_eq_zero_iff (by omega)).mp h10
      rw [if_pos h10, natDigits]
      simp only [hn, dif_pos]
      rw [Nat.mod_eq_of_lt hn]
      rfl
    · have hge : 10 ≤ n := by
        by_contra hlt
        exact h10 (Nat.div_eq_of_lt (by omega))
      have hdiv : n / 10 < fuel := by
        have h2 : n / 10 < n := Nat.div_lt_self (by omega) (by omega)
        omega
      have hnd : natDigits n = natDigits (n / 10) ++ [Nat.digitChar (n % 10)] := by
        rw [natDigits]
        exact dif_neg (by omega)
      rw [if_neg h10, ih (n / 10) _ hdiv, hnd, List.append_assoc]
      rfl

theorem repr_eq_natDigits (n : Nat) : Nat.repr n = ⟨natDigits n⟩ := by
  show (Nat.toDigits 10 n).asString = _
  unfold Nat.toDigits
  rw [toDigitsCore_eq_natDigits (n + 1) n [] (by omega), List.append_nil]
  rfl

theorem natRepr_injective : Function.Injective Nat.repr := by
  intro a b h
  rw [repr_eq_natDigits, repr_eq_natDigits] at h
  have hl : natDigits a = natDigits b := congrArg String.data h
  have := congrArg valL hl
  rwa [valL_natDigits, valL_natDigits] at this

theorem strAppend_cancel {base x y : String} (h : base ++ x = base ++ y) : x = y := by
  cases base with
  | mk bl =>
    cases x with
    | mk xl =>
      cases y with
      | mk yl =>
        have hd : bl ++ xl = bl ++ yl := congrArg String.data h
        exact congrArg String.mk (List.append_cancel_left hd)

-- ===== Supporting lemmas: the `uniqueName` suffix search =====

theorem findSuffix_spec (names : List String) (base : String) :
    ∀ (fuel i : Nat),
      (∃ j, i ≤ j ∧ j < i + fuel ∧ (base ++ Nat.repr j) ∉ names) →
      (base ++ Nat.repr (findSuffix names base fuel i)) ∉ names ∧
      i ≤ findSuffix names base fuel i ∧
      ∀ j, i ≤ j → j < findSuffix names base fuel i → (base ++ Nat.repr j) ∈ names := by
  intro fuel
  induction fuel with
  | zero =>
    intro i ⟨j, h1, h2, _⟩
    omega
  | succ fuel ih =>
    intro i hex
    rw [findSuffix]
    by_cases hmem : (base ++ Nat.repr i) ∈ names
    · rw [if_pos hmem]
      obtain ⟨j, h1, h2, h3⟩ := hex
      have hji : j ≠ i := fun he => h3 (he ▸ hmem)
      obtain ⟨hfree, hle, hleast⟩ := ih (i + 1) ⟨j, by omega, by omega, h3⟩
      refine ⟨hfree, by omega, fun k hk1 hk2 => ?_⟩
      by_cases hki : k = i
      · exact hki ▸ hmem
      · exact hleast k (by omega) hk2
    · rw [if_neg hmem]
      exact ⟨hmem, le_refl i, fun j h1 h2 => by omega⟩

theorem exists_free_suffix (names : List String) (base : String) :
    ∃ j, 2 ≤ j ∧ j < 2 + (names.length + 1) ∧ (base ++ Nat.repr j) ∉ names := by
  by_contra hc
  push_neg at hc
  have hinj : Function.Injective (fun k : Nat => base ++ Nat.repr (k + 2)) := by
    intro a b hab
    have h2 : Nat.repr (a + 2) = Nat.repr (b + 2) := strAppend_cancel hab
    have := natRepr_injective h2
    omega
  have hsub : (Finset.range (names.length + 1)).image (fun k => base ++ Nat.repr (k + 2)) ⊆
      names.toFinset := by
    intro s hs
    rw [Finset.mem_image] at hs
    obtain ⟨k, hk, rfl⟩ := hs
    rw [Finset.mem_range] at hk
    rw [List.mem_toFinset]
    exact hc (k + 2) (by omega) (by omega)
  have hcard := Finset.card_le_card hsub
  rw [Finset.card_image_of_injective _ hinj, Finset.card_range] at hcard
  have hlen := List.toFinset_card_le names
  omega

/-- The name chosen by `uniqueName` is never one already in use. -/
theorem uniqueName_not_mem (names : List String) (base : String) :
    uniqueName names base ∉ names := by
  unfold uniqueName
  by_cases hmem : (if base = "" then "Anon" else base) ∈ names
  · rw [if_pos hmem]
    obtain ⟨j, h1, h2, h3⟩ := exists_free_suffix names base
    exact (findSuffix_spec names base (names.length + 1) 2 ⟨j, h1, h2, h3⟩).1
  · rw [if_neg hmem]
    exact hmem

theorem uniqueName_of_not_mem {names : List String} {base : String}
    (hb : base ≠ "") (h : base ∉ names) : uniqueName names base = base := by
  unfold uniqueName
  simp only [hb, if_neg, not_false_iff, h]

theorem uniqueName_of_mem {names : List String} {base : String}
    (hb : base ≠ "") (h : base ∈ names) :
    ∃ i, 2 ≤ i ∧ uniqueName names base = base ++ Nat.repr i ∧
      (base ++ Nat.repr i) ∉ names ∧
      ∀ j, 2 ≤ j → j < i → (base ++ Nat.repr j) ∈ names := by
  obtain ⟨j, h1, h2, h3⟩ := exists_free_suffix names base
  have hs := findSuffix_spec names base (names.length + 1) 2 ⟨j, h1, h2, h3⟩
  refine ⟨findSuffix names base (names.length + 1) 2, hs.2.1, ?_, hs.1, hs.2.2⟩
  unfold uniqueName
  simp only [hb, if_neg, not_false_iff, h, if_pos]

theorem upsertA_replace_others {sid : String} {users : List (String × String)}
    (hkey : ¬ users.any (fun p => decide (p.1 = sid))) {fn : String} :
    users.map (fun p => if p.1 = sid then (sid, fn) else p) = users := by
  induction users with
  | nil => rfl
  | cons hd tl ih =>
    simp only [List.any_cons, Bool.or_eq_true, decide_eq_true_eq, not_or] at hkey
    simp only [List.map_cons, if_neg hkey.1, ih (by simpa using hkey.2)]

theorem nodup_snd_upsertA {users : List (String × String)} {sid fn : String}
    (hkeys : (users.map Prod.fst).Nodup) (hnames : (users.map Prod.snd).Nodup)
    (hfn : fn ∉ users.map Prod.snd) :
    ((upsertA users sid fn).map Prod.snd).Nodup := by
  unfold upsertA
  by_cases hk : users.any (fun p => decide (p.1 = sid))
  · rw [if_pos hk, List.map_map]
    rw [List.Nodup, List.pairwise_map] at hkeys hnames ⊢
    refine (hkeys.and hnames).imp_of_mem ?_
    intro a b ha hb hab
    obtain ⟨h1, h2⟩ := hab
    show ¬ (Prod.snd (if a.1 = sid then (sid, fn) else a)
            = Prod.snd (if b.1 = sid then (sid, fn) else b))
    by_cases has : a.1 = sid <;> by_cases hbs : b.1 = sid
    · exact absurd (has.trans hbs.symm) h1
    · rw [if_pos has, if_neg hbs]
      intro he
      have hb2 : b.2 ∈ users.map Prod.snd := List.mem_map_of_mem Prod.snd hb
      rw [← show (sid, fn).2 = b.2 from he] at hb2
      exact hfn hb2
    · rw [if_neg has, if_pos hbs]
      intro he
      have ha2 : a.2 ∈ users.map Prod.snd := List.mem_map_of_mem Prod.snd ha
      rw [show a.2 = (sid, fn).2 from he] at ha2
      exact hfn ha2
    · rw [if_neg has, if_neg hbs]
      exact h2
  · rw [if_neg hk, List.map_append]
    simp only [List.map_cons, List.map_nil]
    rw [List.nodup_append]
    exact ⟨hnames, List.nodup_singleton fn,
      by simpa [List.disjoint_singleton] using hfn⟩

end DnD

namespace DnD

-- ===== C6: name uniqueness on join =====

/-- C6 (counterexample): the claim says the final name is the candidate
itself whenever no connected member carries that name; for the empty
candidate (reachable via a whitespace-only `identify` name) `uniqueName`
instead substitutes the fallback `"Anon"` even though no member is named
`""`. -/
theorem uniqueName_empty_candidate :
    uniqueName [] "" = "Anon" ∧ ¬ uniqueName [] "" = "" := by
  constructor
  · rfl
  · decide

/-- C6 (amended): for a nonempty candidate `c`, joining assigns `c` itself
when unused and otherwise `c` followed by the smallest decimal suffix
`i ≥ 2` making the name unused; an empty candidate first falls back to
`"Anon"`.  The assigned name is never already in use, so a join into a
lobby whose connected names are pairwise distinct keeps them pairwise
distinct; two joins with candidate `"Rin"` yield `"Rin"` then `"Rin2"`. -/
theorem uniqueName_spec (names : List String) (c : String) :
    (c ≠ "" → c ∉ names → uniqueName names c = c) ∧
    (c ≠ "" → c ∈ names →
      ∃ i, 2 ≤ i ∧ uniqueName names c = c ++ Nat.repr i ∧
        (c ++ Nat.repr i) ∉ names ∧
        ∀ j, 2 ≤ j → j < i → (c ++ Nat.repr j) ∈ names) ∧
    uniqueName names c ∉ names ∧
    uniqueName [] "Rin" = "Rin" ∧
    uniqueName ["Rin"] "Rin" = "Rin2" ∧
    (∀ (L : Lobby) (lname sid pw : String),
      (L.users.map Prod.fst).Nodup → (L.users.map Prod.snd).Nodup →
      (((joinLobby L lname sid c pw).1.users.map Prod.snd)).Nodup) := by
  refine ⟨fun hb h => uniqueName_of_not_mem hb h,
          fun hb h => uniqueName_of_mem hb h,
          uniqueName_not_mem names c, rfl, rfl, ?_⟩
  intro L lname sid pw hkeys hnames
  have hjoin : ∀ M : Lobby, M.users = L.users →
      (((joinProceed M lname sid c).1.users.map Prod.snd)).Nodup := by
    intro M hM
    show ((upsertA M.users sid (uniqueName (userNames M) c)).map Prod.snd).Nodup
    have hub : uniqueName (userNames M) c ∉ M.users.map Prod.snd := by
      have := uniqueName_not_mem (userNames M) c
      simpa [userNames, hM] using this
    rw [hM] at hub ⊢
    exact nodup_snd_upsertA hkeys hnames hub
  unfold joinLobby
  by_cases hban : lowerStr c ∈ L.bans
  · rw [if_pos hban]
    exact hnames
  · rw [if_neg hban]
    cases hpw : L.passwordHash with
    | some h =>
      dsimp only
      by_cases hv : pw ≠ "" ∧ verifyPass pw h
      · rw [if_pos hv]
        exact hjoin L rfl
      · rw [if_neg hv]
        exact hnames
    | none =>
      dsimp only
      by_cases hp : pw ≠ ""
      · rw [if_pos hp]
        exact hjoin _ rfl
      · rw [if_neg hp]
        by_cases hg : L.gm = none
        · rw [if_pos hg]
          exact hjoin _ rfl
        · rw [if_neg hg]
          exact hjoin L rfl

/-- C6 witness: a second `"Rin"` takes the smallest free suffix `2`. -/
theorem uniqueName_spec_witness :
    ∃ i, 2 ≤ i ∧ uniqueName ["Rin"] "Rin" = "Rin" ++ Nat.repr i ∧
      ("Rin" ++ Nat.repr i) ∉ ["Rin"] ∧
      ∀ j, 2 ≤ j → j < i → ("Rin" ++ Nat.repr j) ∈ ["Rin"] :=
  (uniqueName_spec ["Rin"] "Rin").2.1 (by decide) (by decide)

end DnD

namespace DnD

-- ===== Supporting lemmas: consent flow =====

theorem choiceAck_no_pending {M : Lobby} (h : M.settings.pending = none) (c2 : String) :
    choiceAck M c2 = (M, []) := by
  unfold choiceAck
  rw [h]

theorem setInsert_nodup {l : List String} (h : l.Nodup) (x : String) :
    (setInsert l x).Nodup := by
  unfold setInsert
  by_cases hx : x ∈ l
  · rwa [if_pos hx]
  · rw [if_neg hx, List.nodup_append]
    exact ⟨h, List.nodup_singleton x, by simpa [List.disjoint_singleton] using hx⟩

theorem setInsert_mem {l : List String} {x : String} (h : x ∈ l) :
    setInsert l x = l := by
  unfold setInsert
  rw [if_pos h]

/-- C1: once the `campaign_choice_ack` approvals cover every currently
connected non-GM name, the transition commits exactly once — the scene
pointer moves iff a scene with the pending target id exists, the pending
request is nulled (so any further ack is a complete no-op), approvals
never hold duplicates, and a repeated ack before quorum changes nothing.
The final conjunct ties the pending record produced by
`campaign_choice_request` to the chosen choice's target. -/
theorem consent_quorum_commit (L : Lobby) (c : String) (p : Pending)
    (hp : L.settings.pending = some p) :
    ((∀ n ∈ nonGMNames L, n ∈ setInsert p.approvals c) →
       (choiceAck L c).1.settings.pending = none ∧
       (∀ t, L.campaign.scenes.find? (fun s => decide (s.id = p.toSceneId)) = some t →
          (choiceAck L c).1.campaign.currentSceneId = t.id) ∧
       (L.campaign.scenes.find? (fun s => decide (s.id = p.toSceneId)) = none →
          (choiceAck L c).1.campaign.currentSceneId = L.campaign.currentSceneId) ∧
       (L.campaign.scenes.find? (fun s => decide (s.id = p.toSceneId)) = none ↔
          ∀ s ∈ L.campaign.scenes, s.id ≠ p.toSceneId) ∧
       (∀ c2, choiceAck (choiceAck L c).1 c2 = ((choiceAck L c).1, []))) ∧
    (p.approvals.Nodup → (setInsert p.approvals c).Nodup) ∧
    (c ∈ p.approvals → setInsert p.approvals c = p.approvals) ∧
    (c ∈ p.approvals → ¬ (∀ n ∈ nonGMNames L, n ∈ p.approvals) →
       choiceAck L c = (L, [])) ∧
    (∀ choiceId sc ch, isGM L c → L.settings.campaignStarted = true →
       L.campaign.scenes.find? (fun s => decide (s.id = L.campaign.currentSceneId)) = some sc →
       sc.choices.find? (fun c2 => decide (c2.id = choiceId)) = some ch →
       (choiceRequest L c choiceId).1.settings.pending =
         some ⟨ch.id, ch.text, ch.toSceneId, []⟩) := by
  refine ⟨?_, fun h => setInsert_nodup h c, fun h => setInsert_mem h, ?_, ?_⟩
  · intro hall
    have hallb : (nonGMNames L).all
        (fun n => decide (n ∈ ({p with approvals := setInsert p.approvals c} : Pending).approvals))
        = true := by
      rw [List.all_eq_true]
      intro n hn
      exact decide_eq_true (hall n hn)
    have hstep : choiceAck L c =
        (match L.campaign.scenes.find? (fun s => decide (s.id = p.toSceneId)) with
         | some target =>
           ({L with campaign := {L.campaign with currentSceneId := target.id},
                    settings := {L.settings with pending := none}},
            [Eff.systemAll ("Choice accepted: " ++ p.text), Eff.campaignState, Eff.state])
         | none => ({L with settings := {L.settings with pending := none}}, [Eff.state])) := by
      unfold choiceAck
      rw [hp]
      dsimp only
      rw [if_pos hallb]
    cases hfind : L.campaign.scenes.find? (fun s => decide (s.id = p.toSceneId)) with
    | some target =>
      rw [hfind] at hstep
      dsimp only at hstep
      have h1 : (choiceAck L c).1.settings.pending = none := by rw [hstep]
      refine ⟨h1, ?_, ?_, ?_, fun c2 => choiceAck_no_pending h1 c2⟩
      · intro t ht
        injection ht with ht
        subst ht
        rw [hstep]
      · intro hnone
        exact Option.noConfusion hnone
      · constructor
        · intro h
          exact Option.noConfusion h
        · intro hno
          exfalso
          have hmem := List.mem_of_find?_eq_some hfind
          have hid := List.find?_some hfind
          rw [decide_eq_true_eq] at hid
          exact hno target hmem hid
    | none =>
      rw [hfind] at hstep
      dsimp only at hstep
      have h1 : (choiceAck L c).1.settings.pending = none := by rw [hstep]
      refine ⟨h1, ?_, ?_, ?_, fun c2 => choiceAck_no_pending h1 c2⟩
      · intro t ht
        exact Option.noConfusion ht
      · intro _
        rw [hstep]
      · simp only [true_iff]
        intro s hs
        have hdec := List.find?_eq_none.mp hfind s hs
        rw [decide_eq_true_eq] at hdec
        exact hdec
  · intro hc hnall
    have hne : setInsert p.approvals c = p.approvals := setInsert_mem hc
    have hallb : (nonGMNames L).all
        (fun n => decide (n ∈ ({p with approvals := setInsert p.approvals c} : Pending).approvals))
        = false := by
      rw [← Bool.not_eq_true, List.all_eq_true]
      intro hforall
      apply hnall
      intro n hn
      have := hforall n hn
      rw [decide_eq_true_eq] at this
      rwa [hne] at this
    unfold choiceAck
    rw [hp]
    dsimp only
    rw [if_neg (by rw [hallb]; exact Bool.false_ne_true)]
    have hpend : ({p with approvals := setInsert p.approvals c} : Pending) = p := by
      rw [hne]
    rw [hpend]
    have hset : ({L.settings with pending := some p} : Settings) = L.settings := by
      rw [← hp]
    rw [hset]
  · intro choiceId sc ch hgm hstart hsc hch
    unfold choiceRequest
    rw [if_neg (not_not_intro hgm)]
    rw [if_neg (by rw [hstart]; exact not_not_intro rfl)]
    rw [hsc]
    dsimp only
    rw [hch]

end DnD

namespace DnD

/-- C1 witness: in `pendLobby` the only connected non-GM is `"Rin"`, so
Rin's ack commits — the pointer moves to `"s2"` and the request clears. -/
theorem consent_quorum_commit_witness :
    (choiceAck pendLobby "Rin").1.settings.pending = none ∧
    (choiceAck pendLobby "Rin").1.campaign.currentSceneId = "s2" := by
  have h := (consent_quorum_commit pendLobby "Rin" ⟨"ch1", "go", "s2", []⟩ rfl).1 (by decide)
  exact ⟨h.1, h.2.1 wScene2 (by decide)⟩

/-- C2: `campaign_choice_force` by a non-GM is rejected with the
authorization error and changes nothing; by the GM with a pending request
it commits immediately — whatever the approval set contains — moving the
pointer iff the target scene exists, and clears the request. -/
theorem choice_force_spec (L : Lobby) (c : String) :
    (¬ isGM L c → choiceForce L c = (L, [Eff.errorTo "GM only."])) ∧
    (isGM L c → ∀ p, L.settings.pending = some p →
       (choiceForce L c).1.settings.pending = none ∧
       (∀ t, L.campaign.scenes.find? (fun s => decide (s.id = p.toSceneId)) = some t →
          (choiceForce L c).1.campaign.currentSceneId = t.id) ∧
       (L.campaign.scenes.find? (fun s => decide (s.id = p.toSceneId)) = none →
          (choiceForce L c).1.campaign.currentSceneId = L.campaign.currentSceneId)) := by
  constructor
  · intro h
    unfold choiceForce
    rw [if_pos h]
  · intro hgm p hp
    have hstep : choiceForce L c =
        (match L.campaign.scenes.find? (fun s => decide (s.id = p.toSceneId)) with
         | some target =>
           ({L with campaign := {L.campaign with currentSceneId := target.id},
                    settings := {L.settings with pending := none}},
            [Eff.systemAll ("GM forced proceed: " ++ p.text), Eff.campaignState, Eff.state])
         | none => ({L with settings := {L.settings with pending := none}}, [Eff.state])) := by
      unfold choiceForce
      rw [if_neg (not_not_intro hgm), hp]
    cases hfind : L.campaign.scenes.find? (fun s => decide (s.id = p.toSceneId)) with
    | some target =>
      rw [hfind] at hstep
      dsimp only at hstep
      refine ⟨by rw [hstep], ?_, ?_⟩
      · intro t ht
        injection ht with ht
        subst ht
        rw [hstep]
      · intro hnone
        exact Option.noConfusion hnone
    | none =>
      rw [hfind] at hstep
      dsimp only at hstep
      refine ⟨by rw [hstep], ?_, ?_⟩
      · intro t ht
        exact Option.noConfusion ht
      · intro _
        rw [hstep]

/-- C2 witness: the GM forces `pendLobby`'s request with an empty approval
set (pointer moves, request cleared), and player `"Rin"` is rejected. -/
theorem choice_force_spec_witness :
    (choiceForce pendLobby "Rin" = (pendLobby, [Eff.errorTo "GM only."])) ∧
    (choiceForce pendLobby "Gm").1.settings.pending = none ∧
    (choiceForce pendLobby "Gm").1.campaign.currentSceneId = "s2" := by
  have h1 := (choice_force_spec pendLobby "Rin").1 (by decide)
  have h2 := (choice_force_spec pendLobby "Gm").2 (by decide) ⟨"ch1", "go", "s2", []⟩ rfl
  exact ⟨h1, h2.1, h2.2.1 wScene2 (by decide)⟩

/-- C10: `campaign_choice_ack` never checks who acks — any caller,
including the GM, is added, and quorum is evaluated against the non-GM
names connected at that moment; with no non-GM connected, a single ack
commits immediately (pointer move iff the target exists) and clears the
pending request. -/
theorem ack_empty_quorum (L : Lobby) (c : String) (p : Pending)
    (hp : L.settings.pending = some p) (hng : nonGMNames L = []) :
    (choiceAck L c).1.settings.pending = none ∧
    (∀ t, L.campaign.scenes.find? (fun s => decide (s.id = p.toSceneId)) = some t →
       (choiceAck L c).1.campaign.currentSceneId = t.id) ∧
    (L.campaign.scenes.find? (fun s => decide (s.id = p.toSceneId)) = none →
       (choiceAck L c).1.campaign.currentSceneId = L.campaign.currentSceneId) := by
  have hallb : (nonGMNames L).all
      (fun n => decide (n ∈ ({p with approvals := setInsert p.approvals c} : Pending).approvals))
      = true := by
    rw [hng]
    rfl
  have hstep : choiceAck L c =
      (match L.campaign.scenes.find? (fun s => decide (s.id = p.toSceneId)) with
       | some target =>
         ({L with campaign := {L.campaign with currentSceneId := target.id},
                  settings := {L.settings with pending := none}},
          [Eff.systemAll ("Choice accepted: " ++ p.text), Eff.campaignState, Eff.state])
       | none => ({L with settings := {L.settings with pending := none}}, [Eff.state])) := by
    unfold choiceAck
    rw [hp]
    dsimp only
    rw [if_pos hallb]
  cases hfind : L.campaign.scenes.find? (fun s => decide (s.id = p.toSceneId)) with
  | some target =>
    rw [hfind] at hstep
    dsimp only at hstep
    refine ⟨by rw [hstep], ?_, ?_⟩
    · intro t ht
      injection ht with ht
      subst ht
      rw [hstep]
    · intro hnone
      exact Option.noConfusion hnone
  | none =>
    rw [hfind] at hstep
    dsimp only at hstep
    refine ⟨by rw [hstep], ?_, ?_⟩
    · intro t ht
      exact Option.noConfusion ht
    · intro _
      rw [hstep]

/-- C10 witness: in `gmOnlyLobby` the players have all disconnected; the
GM's own ack commits the choice at once. -/
theorem ack_empty_quorum_witness :
    (choiceAck gmOnlyLobby "Gm").1.settings.pending = none ∧
    (choiceAck gmOnlyLobby "Gm").1.campaign.currentSceneId = "s2" := by
  have h := ack_empty_quorum gmOnlyLobby "Gm" ⟨"ch1", "go", "s2", []⟩ rfl (by decide)
  exact ⟨h.1, h.2.1 wScene2 (by decide)⟩

end DnD

namespace DnD

-- ===== Supporting lemmas: dice =====

theorem parseDice_adv : parseDice "adv" = none := rfl
theorem parseDice_d20adv : parseDice "d20adv" = none := rfl
theorem parseDice_dis : parseDice "dis" = none := rfl
theorem parseDice_d20dis : parseDice "d20dis" = none := rfl

theorem rollAdvanced_eq_rollCore {s : String} (h : parseDice (normExpr s) ≠ none)
    (rand : Nat → Nat) : rollAdvanced rand s = rollCore rand s := by
  unfold rollAdvanced
  by_cases h1 : normExpr s = "adv" ∨ normExpr s = "d20adv"
  · exfalso
    rcases h1 with h1 | h1 <;> rw [h1] at h
    · exact h parseDice_adv
    · exact h parseDice_d20adv
  · rw [if_neg h1]
    by_cases h2 : normExpr s = "dis" ∨ normExpr s = "d20dis"
    · exfalso
      rcases h2 with h2 | h2 <;> rw [h2] at h
      · exact h parseDice_dis
      · exact h parseDice_d20dis
    · rw [if_neg h2]

theorem rollDice_length (rand : Nat → Nat) (count sides : Nat) :
    (rollDice rand count sides).length = count := by
  simp [rollDice]

theorem rollDice_mem {rand : Nat → Nat} {count sides x : Nat} (hs : 1 ≤ sides)
    (hx : x ∈ rollDice rand count sides) : 1 ≤ x ∧ x ≤ sides := by
  unfold rollDice at hx
  rcases List.mem_map.mp hx with ⟨i, _, rfl⟩
  rw [if_neg (by omega)]
  have := Nat.mod_lt (rand i) (show 0 < sides by omega)
  omega

/-- C4 (amended): `rollAdvanced` fails exactly on malformed syntax (with
the `Invalid dice` reason), on `count > 100` or `sides > 1000` (with the
`Too big` reason), or on a keep-modifier whose N is at least 1 and exceeds
the count (with the `Keep out of range` reason) — a keep-N of `0`, though
outside `[1, count]`, is accepted and ignored; `"200d6"` trips the bounds
error, `"d20kh2"` trips the keep error, and the three reasons are
pairwise distinct, separating malformed syntax from out-of-bounds. -/
theorem rollAdvanced_validation :
    (∀ (rand : Nat → Nat) (s : String), parseDice (normExpr s) = none →
       ¬ (normExpr s = "adv" ∨ normExpr s = "d20adv") →
       ¬ (normExpr s = "dis" ∨ normExpr s = "d20dis") →
       rollAdvanced rand s = .error invalidMsg) ∧
    (∀ (rand : Nat → Nat) (s : String) (m : DiceMatch), parseDice (normExpr s) = some m →
       (100 < max 1 (m.countRaw.getD 1) ∨ 1000 < m.sides →
          rollAdvanced rand s = .error tooBigMsg) ∧
       (max 1 (m.countRaw.getD 1) ≤ 100 → m.sides ≤ 1000 →
          ∀ b n, m.keep = some (b, n) → 1 ≤ n → max 1 (m.countRaw.getD 1) < n →
            rollAdvanced rand s = .error keepMsg) ∧
       (max 1 (m.countRaw.getD 1) ≤ 100 → m.sides ≤ 1000 →
          (∀ b n, m.keep = some (b, n) → n = 0 ∨ n ≤ max 1 (m.countRaw.getD 1)) →
          ∃ r, rollAdvanced rand s = .ok r)) ∧
    (∀ rand : Nat → Nat, rollAdvanced rand "200d6" = .error tooBigMsg) ∧
    (∀ rand : Nat → Nat, rollAdvanced rand "d20kh2" = .error keepMsg) ∧
    (invalidMsg ≠ tooBigMsg ∧ invalidMsg ≠ keepMsg ∧ tooBigMsg ≠ keepMsg) := by
  refine ⟨?_, ?_, fun rand => rfl, fun rand => rfl, by decide, by decide, by decide⟩
  · intro rand s hparse h1 h2
    unfold rollAdvanced
    rw [if_neg h1, if_neg h2]
    unfold rollCore
    rw [hparse]
  · intro rand s m hm
    have hcore := rollAdvanced_eq_rollCore (s := s) (by rw [hm]; exact Option.noConfusion) rand
    refine ⟨?_, ?_, ?_⟩
    · intro hbig
      rw [hcore]
      unfold rollCore
      rw [hm]
      dsimp only
      rw [if_pos hbig]
    · intro hc hs b n hk h1 hlt
      rw [hcore]
      unfold rollCore
      rw [hm]
      dsimp only
      rw [if_neg (by omega), if_pos (by unfold keepOutOfRange; rw [hk]; simp; omega)]
    · intro hc hs hkeep
      rw [hcore]
      unfold rollCore
      rw [hm]
      dsimp only
      rw [if_neg (by omega), if_neg ?_]
      · exact ⟨_, rfl⟩
      · unfold keepOutOfRange
        cases hk : m.keep with
        | none => simp
        | some bn =>
          obtain ⟨b, n⟩ := bn
          rcases hkeep b n hk with h0 | hle <;> simp <;> omega

end DnD

namespace DnD

/-- C4 counterexample: `"d20kh0"` carries a keep-modifier whose N is `0`,
outside `[1, count] = [1, 1]`, yet `rollAdvanced` accepts it (the JS guard
`keepN && ...` is skipped on the falsy `0`) instead of failing. -/
theorem rollAdvanced_keep_zero_accepted :
    parseDice (normExpr "d20kh0") = some ⟨none, 20, some (true, 0), 0⟩ ∧
    rollAdvanced (fun _ => 0) "d20kh0" = .ok ⟨"d20kh0", [1], [1], 0, 1⟩ := ⟨rfl, rfl⟩

/-- C4 witness: a malformed expression yields the syntax error. -/
theorem rollAdvanced_validation_witness :
    rollAdvanced (fun _ => 0) "banana" = .error invalidMsg :=
  rollAdvanced_validation.1 (fun _ => 0) "banana" rfl (by decide) (by decide)

/-- C5 counterexample: `"d0"` is accepted by the evaluator (`sides = 0`
passes every bound) and produces the roll `1`, which does not lie in the
claimed interval `[1, sides] = [1, 0]`. -/
theorem rollAdvanced_d0_roll_out_of_range :
    rollAdvanced (fun _ => 0) "d0" = .ok ⟨"d0", [1], [1], 0, 1⟩ ∧
    ¬ ((1 : Nat) ≤ (⟨"d0", [1], [1], 0, 1⟩ : RollRes).total.toNat - 1) := ⟨rfl, by decide⟩

/-- C5 (amended): for an expression the evaluator accepts whose parsed
`sides` is at least 1 and whose keep-modifier, when present, has
`1 ≤ N ≤ count` (count being `max 1` of the written count, default 1):
`rolls` has exactly `count` entries, each in `[1, sides]`; `used` is
`rolls` when no keep-modifier is present and otherwise the first N
entries of the rolled multiset sorted descending (`kh`) or ascending
(`kl`); and `total = sum(used) + modifier`. -/
theorem rollAdvanced_result (rand : Nat → Nat) (s : String) (m : DiceMatch)
    (hm : parseDice (normExpr s) = some m) (hsides : 1 ≤ m.sides)
    (hc : max 1 (m.countRaw.getD 1) ≤ 100) (hs : m.sides ≤ 1000)
    (hk : ∀ b n, m.keep = some (b, n) → 1 ≤ n ∧ n ≤ max 1 (m.countRaw.getD 1)) :
    ∃ r, rollAdvanced rand s = .ok r ∧
      r.rolls.length = max 1 (m.countRaw.getD 1) ∧
      (∀ x ∈ r.rolls, 1 ≤ x ∧ x ≤ m.sides) ∧
      r.modifier = m.modifier ∧
      (m.keep = none → r.used = r.rolls) ∧
      (∀ n, m.keep = some (true, n) →
         r.used = (sortDescN r.rolls).take n ∧ (sortDescN r.rolls).Perm r.rolls ∧
         List.Sorted (fun a b : Nat => b ≤ a) (sortDescN r.rolls)) ∧
      (∀ n, m.keep = some (false, n) →
         r.used = (sortAscN r.rolls).take n ∧ (sortAscN r.rolls).Perm r.rolls ∧
         List.Sorted (fun a b : Nat => a ≤ b) (sortAscN r.rolls)) ∧
      r.total = (r.used.sum : Int) + r.modifier := by
  have hcore := rollAdvanced_eq_rollCore (s := s) (by rw [hm]; exact Option.noConfusion) rand
  have hguard : keepOutOfRange m.keep (max 1 (m.countRaw.getD 1)) ≠ true := by
    unfold keepOutOfRange
    cases hkk : m.keep with
    | none => simp
    | some bn =>
      obtain ⟨b, n⟩ := bn
      have := hk b n hkk
      simp
      omega
  cases hkk : m.keep with
  | none =>
    have hstep : rollAdvanced rand s =
        .ok ⟨s, rollDice rand (max 1 (m.countRaw.getD 1)) m.sides,
             rollDice rand (max 1 (m.countRaw.getD 1)) m.sides, m.modifier,
             ((rollDice rand (max 1 (m.countRaw.getD 1)) m.sides).sum : Int) + m.modifier⟩ := by
      rw [hcore]
      unfold rollCore
      rw [hm]
      dsimp only
      rw [if_neg (by omega), if_neg hguard, hkk]
    refine ⟨_, hstep, rollDice_length rand _ _, fun x hx => rollDice_mem hsides hx, rfl,
            fun _ => rfl, ?_, ?_, rfl⟩
    · intro n hn
      exact Option.noConfusion hn
    · intro n hn
      exact Option.noConfusion hn
  | some bn =>
    obtain ⟨b, n⟩ := bn
    have hn1 : 1 ≤ n := (hk b n hkk).1
    cases b with
    | true =>
      have hstep : rollAdvanced rand s =
          .ok ⟨s, rollDice rand (max 1 (m.countRaw.getD 1)) m.sides,
               (sortDescN (rollDice rand (max 1 (m.countRaw.getD 1)) m.sides)).take n,
               m.modifier,
               (((sortDescN (rollDice rand (max 1 (m.countRaw.getD 1)) m.sides)).take n).sum : Int)
                 + m.modifier⟩ := by
        rw [hcore]
        unfold rollCore
        rw [hm]
        dsimp only
        rw [if_neg (by omega), if_neg hguard, hkk]
        dsimp only
        rw [if_neg (by omega)]
        rfl
      refine ⟨_, hstep, rollDice_length rand _ _, fun x hx => rollDice_mem hsides hx, rfl,
              ?_, ?_, ?_, rfl⟩
      · intro hnone
        exact Option.noConfusion hnone
      · intro n2 hn2
        injection hn2 with hn2
        injection hn2 with hb hn2
        subst hn2
        exact ⟨rfl, List.perm_insertionSort _ _, List.sorted_insertionSort _ _⟩
      · intro n2 hn2
        injection hn2 with hn2
        injection hn2 with hb hn2
        exact Bool.noConfusion hb
    | false =>
      have hstep : rollAdvanced rand s =
          .ok ⟨s, rollDice rand (max 1 (m.countRaw.getD 1)) m.sides,
               (sortAscN (rollDice rand (max 1 (m.countRaw.getD 1)) m.sides)).take n,
               m.modifier,
               (((sortAscN (rollDice rand (max 1 (m.countRaw.getD 1)) m.sides)).take n).sum : Int)
                 + m.modifier⟩ := by
        rw [hcore]
        unfold rollCore
        rw [hm]
        dsimp only
        rw [if_neg (by omega), if_neg hguard, hkk]
        dsimp only
        rw [if_neg (by omega)]
        rfl
      refine ⟨_, hstep, rollDice_length rand _ _, fun x hx => rollDice_mem hsides hx, rfl,
              ?_, ?_, ?_, rfl⟩
      · intro hnone
        exact Option.noConfusion hnone
      · intro n2 hn2
        injection hn2 with hn2
        injection hn2 with hb hn2
        exact Bool.noConfusion hb
      · intro n2 hn2
        injection hn2 with hn2
        injection hn2 with hb hn2
        subst hn2
        exact ⟨rfl, List.perm_insertionSort _ _, List.sorted_insertionSort _ _⟩

/-- C5 witness at `"4d6kh3"` with the deterministic source `i ↦ i`. -/
theorem rollAdvanced_result_witness :
    ∃ r, rollAdvanced (fun i => i) "4d6kh3" = .ok r ∧
      r.rolls.length = max 1 (wDice.countRaw.getD 1) ∧
      (∀ x ∈ r.rolls, 1 ≤ x ∧ x ≤ wDice.sides) ∧
      r.modifier = wDice.modifier ∧
      (wDice.keep = none → r.used = r.rolls) ∧
      (∀ n, wDice.keep = some (true, n) →
         r.used = (sortDescN r.rolls).take n ∧ (sortDescN r.rolls).Perm r.rolls ∧
         List.Sorted (fun a b : Nat => b ≤ a) (sortDescN r.rolls)) ∧
      (∀ n, wDice.keep = some (false, n) →
         r.used = (sortAscN r.rolls).take n ∧ (sortAscN r.rolls).Perm r.rolls ∧
         List.Sorted (fun a b : Nat => a ≤ b) (sortAscN r.rolls)) ∧
      r.total = (r.used.sum : Int) + r.modifier :=
  rollAdvanced_result (fun i => i) "4d6kh3" wDice rfl (by decide) (by decide) (by decide)
    (by rintro b n h; cases h; exact ⟨by decide, by decide⟩)

end DnD

namespace DnD

/-- C3: while `lockedUntilStart` holds and the campaign has not started, a
non-GM chat message, dice roll, token add/move/remove, or map ping is
rejected with the dedicated lock error and leaves the lobby untouched;
the GM's calls are computed exactly as they would be with the lock flag
off (so the GM is never subject to the lock), and the lock error is
distinct from the authorization error. -/
theorem lobby_lock_rule (L : Lobby) (c : String) :
    (isLockedForPlayers L → ¬ isGM L c →
       (∀ (rand : Nat → Nat) (fid sid text : String), ¬ safe 500 text = "" →
          ¬ (safe 500 text).data.head? = some '/' →
          chatHandler rand fid L sid c text = (L, [Eff.errorTo lockedMsg])) ∧
       (∀ (rand : Nat → Nat) (e : String),
          rollHandler rand L c e = (L, [Eff.errorTo lockedMsg])) ∧
       (∀ id nm col ftid, tokenAdd L c id nm col ftid = (L, [Eff.errorTo lockedMsg])) ∧
       (∀ tid x y, tokenMove L c tid x y = (L, [Eff.errorTo lockedMsg])) ∧
       (∀ tid, tokenRemove L c tid = (L, [Eff.errorTo lockedMsg])) ∧
       (∀ x y, pingHandler L c x y = (L, [Eff.errorTo lockedMsg])) ∧
       ¬ lockedMsg = "GM only.") ∧
    (isGM L c →
       (∀ (rand : Nat → Nat) (fid sid text : String), ¬ safe 500 text = "" →
          ¬ (safe 500 text).data.head? = some '/' →
          chatHandler rand fid L sid c text =
            (setLockFlag L.settings.lockedUntilStart
               (chatHandler rand fid (setLockFlag false L) sid c text).1,
             (chatHandler rand fid (setLockFlag false L) sid c text).2)) ∧
       (∀ (rand : Nat → Nat) (e : String),
          rollHandler rand L c e =
            (setLockFlag L.settings.lockedUntilStart
               (rollHandler rand (setLockFlag false L) c e).1,
             (rollHandler rand (setLockFlag false L) c e).2)) ∧
       (∀ id nm col ftid,
          tokenAdd L c id nm col ftid =
            (setLockFlag L.settings.lockedUntilStart
               (tokenAdd (setLockFlag false L) c id nm col ftid).1,
             (tokenAdd (setLockFlag false L) c id nm col ftid).2)) ∧
       (∀ tid x y,
          tokenMove L c tid x y =
            (setLockFlag L.settings.lockedUntilStart
               (tokenMove (setLockFlag false L) c tid x y).1,
             (tokenMove (setLockFlag false L) c tid x y).2)) ∧
       (∀ tid,
          tokenRemove L c tid =
            (setLockFlag L.settings.lockedUntilStart
               (tokenRemove (setLockFlag false L) c tid).1,
             (tokenRemove (setLockFlag false L) c tid).2)) ∧
       (∀ x y,
          pingHandler L c x y =
            (setLockFlag L.settings.lockedUntilStart
               (pingHandler (setLockFlag false L) c x y).1,
             (pingHandler (setLockFlag false L) c x y).2))) := by
  constructor
  · intro hlock hgm
    have hcond : isLockedForPlayers L ∧ ¬ isGM L c := ⟨hlock, hgm⟩
    refine ⟨?_, ?_, ?_, ?_, ?_, ?_, by decide⟩
    · intro rand fid sid text hne hcmd
      unfold chatHandler
      rw [if_neg hne, if_neg hcmd, if_pos hcond]
    · intro rand e
      unfold rollHandler
      rw [if_pos hcond]
    · intro id nm col ftid
      unfold tokenAdd
      rw [if_pos hcond]
    · intro tid x y
      unfold tokenMove
      rw [if_pos hcond]
    · intro tid
      unfold tokenRemove
      rw [if_pos hcond]
    · intro x y
      unfold pingHandler
      rw [if_pos hcond]
  · intro hgm
    have hgm2 : isGM (setLockFlag false L) c := hgm
    have hnc1 : ¬ (isLockedForPlayers L ∧ ¬ isGM L c) := fun h => h.2 hgm
    have hnc2 : ¬ (isLockedForPlayers (setLockFlag false L) ∧
        ¬ isGM (setLockFlag false L) c) := fun h => h.2 hgm2
    refine ⟨?_, ?_, ?_, ?_, ?_, ?_⟩
    · intro rand fid sid text hne hcmd
      unfold chatHandler
      rw [if_neg hne, if_neg hcmd, if_neg hnc1, if_neg hne, if_neg hcmd, if_neg hnc2]
      rfl
    · intro rand e
      unfold rollHandler
      rw [if_neg hnc1, if_neg hnc2]
      cases rollAdvanced rand (if e = "" then "d20" else e) with
      | ok res => rfl
      | error msg => rfl
    · intro id nm col ftid
      unfold tokenAdd
      rw [if_neg hnc1, if_neg hnc2]
      rfl
    · intro tid x y
      unfold tokenMove
      rw [if_neg hnc1, if_neg hnc2]
      show (match L.map.tokens.find? (fun t : Token => decide (t.id = tid)) with
            | none => (L, ([] : List Eff))
            | some tok =>
              if ¬ isGM L c ∧ ¬ tok.owner = c then
                (L, [Eff.errorTo "Only owner or GM can move this token."])
              else
                let x1 := clampI 0 ((L.map.w : Int) - 1) (coordOrZero x)
                let y1 := clampI 0 ((L.map.h : Int) - 1) (coordOrZero y)
                if tileAtI L.map x1 y1 = 1 then (L, [])
                else
                  let ts1 := L.map.tokens.map
                    (fun t : Token => if t.id = tid then {t with x := x1, y := y1} else t)
                  ({L with map := {L.map with tokens := ts1}}, [Eff.mapState])) = _
      rw [show (setLockFlag false L).map = L.map from rfl]
      cases hfind : L.map.tokens.find? (fun t => decide (t.id = tid)) with
      | none => rfl
      | some tok =>
        dsimp only
        rw [if_neg (show ¬ (¬ isGM L c ∧ ¬ tok.owner = c) from fun h => h.1 hgm),
            if_neg (show ¬ (¬ isGM (setLockFlag false L) c ∧ ¬ tok.owner = c) from
              fun h => h.1 hgm2)]
        by_cases hwall : tileAtI L.map (clampI 0 ((L.map.w : Int) - 1) (coordOrZero x))
            (clampI 0 ((L.map.h : Int) - 1) (coordOrZero y)) = 1
        · rw [if_pos hwall, if_pos hwall]
          rfl
        · rw [if_neg hwall, if_neg hwall]
          rfl
    · intro tid
      unfold tokenRemove
      rw [if_neg hnc1, if_neg hnc2]
      show (match L.map.tokens.find? (fun t : Token => decide (t.id = tid)) with
            | none => (L, ([] : List Eff))
            | some tok =>
              if ¬ isGM L c ∧ ¬ tok.owner = c then (L, [])
              else
                let ts1 := L.map.tokens.filter (fun t : Token => !decide (t.id = tid))
                ({L with map := {L.map with tokens := ts1}}, [Eff.mapState])) = _
      rw [show (setLockFlag false L).map = L.map from rfl]
      cases hfind : L.map.tokens.find? (fun t => decide (t.id = tid)) with
      | none => rfl
      | some tok =>
        dsimp only
        rw [if_neg (show ¬ (¬ isGM L c ∧ ¬ tok.owner = c) from fun h => h.1 hgm),
            if_neg (show ¬ (¬ isGM (setLockFlag false L) c ∧ ¬ tok.owner = c) from
              fun h => h.1 hgm2)]
        rfl
    · intro x y
      unfold pingHandler
      rw [if_neg hnc1, if_neg hnc2]
      rfl

end DnD

namespace DnD

/-- C3 witness: in the not-yet-started `lockedLobby`, player `"Rin"` is
locked out of chat and rolls while the GM's identical roll goes through
exactly as with the lock off. -/
theorem lobby_lock_rule_witness :
    chatHandler (fun _ => 0) "f" lockedLobby "k2" "Rin" "hello" =
      (lockedLobby, [Eff.errorTo lockedMsg]) ∧
    rollHandler (fun _ => 0) lockedLobby "Rin" "d20" =
      (lockedLobby, [Eff.errorTo lockedMsg]) ∧
    rollHandler (fun _ => 0) lockedLobby "Gm" "d20" =
      (setLockFlag lockedLobby.settings.lockedUntilStart
         (rollHandler (fun _ => 0) (setLockFlag false lockedLobby) "Gm" "d20").1,
       (rollHandler (fun _ => 0) (setLockFlag false lockedLobby) "Gm" "d20").2) := by
  have h1 := (lobby_lock_rule lockedLobby "Rin").1 ⟨rfl, rfl⟩ (by decide)
  have h2 := (lobby_lock_rule lockedLobby "Gm").2 (by decide)
  exact ⟨h1.1 (fun _ => 0) "f" "k2" "hello" (by decide) (by decide),
         h1.2.1 (fun _ => 0) "d20", h2.2.1 (fun _ => 0) "d20"⟩

end DnD

namespace DnD

/-- C7: `gm` is write-once.  Once non-null, no slash command (`/setpass`,
`/kick`, `/ban`, … — the whole interpreter), no join, and no
leave/disconnect ever changes or clears it; from null it can only flip
during a join into an unbanned, unlocked (password-free) lobby — to the
joiner, either establishing the first password (`password` supplied) or
as plain first joiner — or through the `/setpass` success path, which
simultaneously establishes the first password. -/
theorem gm_assigned_once :
    (∀ (rand : Nat → Nat) (fid : String) (L : Lobby) (sid u line : String),
       L.gm ≠ none → (handleCommand rand fid L sid u line).1.gm = L.gm) ∧
    (∀ (L : Lobby) (lname sid u pw : String),
       L.gm ≠ none → (joinLobby L lname sid u pw).1.gm = L.gm) ∧
    (∀ (L : Lobby) (sid u : String), (disconnectLobby L sid u).1.gm = L.gm) ∧
    (∀ (L : Lobby) (lname sid u pw : String), L.gm = none →
       ((joinLobby L lname sid u pw).1.gm = none ∨
        ((joinLobby L lname sid u pw).1.gm = some u ∧ L.passwordHash = none ∧
         lowerStr u ∉ L.bans ∧
         ((pw ≠ "" ∧ (joinLobby L lname sid u pw).1.passwordHash = some (hashPass pw)) ∨
          (pw = "" ∧ (joinLobby L lname sid u pw).1.passwordHash = none))))) ∧
    (∀ (rand : Nat → Nat) (fid : String) (L : Lobby) (sid u line : String), L.gm = none →
       ((handleCommand rand fid L sid u line).1.gm = none ∨
        ((handleCommand rand fid L sid u line).1.gm = some u ∧ L.passwordHash = none ∧
         handleCommand rand fid L sid u line =
           ({L with passwordHash := some (hashPass (argOf line)), gm := some u},
            [Eff.systemAll "Lobby password set/updated.", Eff.state])))) := by
  refine ⟨?_, ?_, ?_, ?_, ?_⟩
  · intro rand fid L sid u line h
    unfold handleCommand
    dsimp only
    repeat' split
    all_goals rfl
  · intro L lname sid u pw h
    unfold joinLobby
    by_cases hban : lowerStr u ∈ L.bans
    · rw [if_pos hban]
    · rw [if_neg hban]
      cases hpw : L.passwordHash with
      | some ph =>
        dsimp only
        by_cases hv : pw ≠ "" ∧ verifyPass pw ph = true
        · rw [if_pos hv]
          rfl
        · rw [if_neg hv]
      | none =>
        dsimp only
        by_cases hne : pw ≠ ""
        · rw [if_pos hne, if_neg h]
          rfl
        · rw [if_neg hne, if_neg h]
          rfl
  · intro L sid u
    rfl
  · intro L lname sid u pw h
    unfold joinLobby
    by_cases hban : lowerStr u ∈ L.bans
    · rw [if_pos hban]
      left
      exact h
    · rw [if_neg hban]
      cases hpw : L.passwordHash with
      | some ph =>
        dsimp only
        by_cases hv : pw ≠ "" ∧ verifyPass pw ph = true
        · rw [if_pos hv]
          left
          exact h
        · rw [if_neg hv]
          left
          exact h
      | none =>
        dsimp only
        by_cases hne : pw ≠ ""
        · rw [if_pos hne, if_pos h]
          right
          exact ⟨rfl, rfl, hban, Or.inl ⟨hne, rfl⟩⟩
        · rw [if_neg hne, if_pos h]
          right
          refine ⟨rfl, rfl, hban, Or.inr ⟨by simpa using hne, ?_⟩⟩
          rfl
  · intro rand fid L sid u line h
    unfold handleCommand
    dsimp only
    repeat' split
    all_goals try (left; exact h)
    all_goals rename_i hcond hne hgm0
    all_goals right
    all_goals refine ⟨rfl, ?_, rfl⟩
    cases hph : L.passwordHash with
    | none => rfl
    | some ph =>
      exfalso
      apply hne
      constructor
      · rw [hph]
        rfl
      · show ¬ decide (isGM L u) = true
        simp [isGM, h]

end DnD

namespace DnD

/-- C7 witness: with a GM in place, a `/setpass`, a `/kick`, a fresh join
and a disconnect all leave `gm` untouched. -/
theorem gm_assigned_once_witness :
    (handleCommand (fun _ => 0) "f" baseLobby "k2" "Rin" "/setpass hunter2").1.gm =
      baseLobby.gm ∧
    (handleCommand (fun _ => 0) "f" baseLobby "k1" "Gm" "/kick Rin").1.gm = baseLobby.gm ∧
    (joinLobby baseLobby "tavern" "k9" "Sam" "").1.gm = baseLobby.gm ∧
    (disconnectLobby baseLobby "k2" "Rin").1.gm = baseLobby.gm :=
  ⟨gm_assigned_once.1 (fun _ => 0) "f" baseLobby "k2" "Rin" "/setpass hunter2" (by decide),
   gm_assigned_once.1 (fun _ => 0) "f" baseLobby "k1" "Gm" "/kick Rin" (by decide),
   gm_assigned_once.2.1 baseLobby "tavern" "k9" "Sam" "" (by decide),
   gm_assigned_once.2.2.1 baseLobby "k2" "Rin"⟩

end DnD

namespace DnD

-- ===== Supporting lemmas: map clamp =====

theorem clampI_bounds (a b n : Int) (hab : a ≤ b) :
    a ≤ clampI a b n ∧ clampI a b n ≤ b := by
  unfold clampI
  exact ⟨le_max_left a _, max_le hab (min_le_left _ _)⟩

/-- C8 counterexample: the claim says a GM `map_init` clamps each
requested dimension into `[5, 60]`, which at width `0` would give `5`;
the code first replaces the falsy `0` by the default `20`, so the
resulting width is `20`. -/
theorem map_init_zero_width_default :
    (mapInit baseLobby "Gm" (some 0) (some 20)).1.map.w = 20 ∧
    clampI 5 60 0 = 5 ∧
    ¬ (mapInit baseLobby "Gm" (some 0) (some 20)).1.map.w = 5 := by
  refine ⟨by decide, by decide, by decide⟩

/-- C8 (amended): a non-GM `map_init` changes nothing and gets the
authorization error; a GM call defaults an absent or zero dimension to
20, clamps each (nonzero) requested dimension into `[5, 60]` (so width
100 becomes 60), installs a freshly allocated all-open grid whose row
count and row lengths match the clamped height and width, and removes
every token. -/
theorem map_init_spec (L : Lobby) (c : String) :
    (¬ isGM L c → ∀ w h, mapInit L c w h = (L, [Eff.errorTo "GM only."])) ∧
    (isGM L c → ∀ w h,
       ((((mapInit L c w h).1.map.w : Int) = clampI 5 60 (dimOrDefault w) ∧
         (((mapInit L c w h).1.map.h : Int) = clampI 5 60 (dimOrDefault h)))) ∧
       (∀ v : Int, w = some v → ¬ v = 0 → ((mapInit L c w h).1.map.w : Int) = clampI 5 60 v) ∧
       ((w = some 0 ∨ w = none) → (mapInit L c w h).1.map.w = 20) ∧
       (w = some 100 → (mapInit L c w h).1.map.w = 60) ∧
       (5 ≤ (mapInit L c w h).1.map.w ∧ (mapInit L c w h).1.map.w ≤ 60 ∧
        5 ≤ (mapInit L c w h).1.map.h ∧ (mapInit L c w h).1.map.h ≤ 60) ∧
       (mapInit L c w h).1.map.tiles.length = (mapInit L c w h).1.map.h ∧
       (∀ row ∈ (mapInit L c w h).1.map.tiles,
          row.length = (mapInit L c w h).1.map.w ∧ ∀ cell ∈ row, cell = 0) ∧
       (mapInit L c w h).1.map.tokens = []) := by
  constructor
  · intro hgm w h
    unfold mapInit
    rw [if_pos hgm]
  · intro hgm w h
    have hred : mapInit L c w h =
        ({L with map := {w := (clampI 5 60 (dimOrDefault w)).toNat,
                         h := (clampI 5 60 (dimOrDefault h)).toNat,
                         tiles := List.replicate (clampI 5 60 (dimOrDefault h)).toNat
                           (List.replicate (clampI 5 60 (dimOrDefault w)).toNat 0),
                         tokens := []}},
         [Eff.systemAll ("Map set to " ++ toString (clampI 5 60 (dimOrDefault w)).toNat
            ++ "×" ++ toString (clampI 5 60 (dimOrDefault h)).toNat), Eff.mapState]) := by
      unfold mapInit
      rw [if_neg (not_not_intro hgm)]
    have hb1 := clampI_bounds 5 60 (dimOrDefault w) (by omega)
    have hb2 := clampI_bounds 5 60 (dimOrDefault h) (by omega)
    rw [hred]
    refine ⟨⟨?_, ?_⟩, ?_, ?_, ?_, ⟨?_, ?_, ?_, ?_⟩, ?_, ?_, rfl⟩
    · show ((clampI 5 60 (dimOrDefault w)).toNat : Int) = clampI 5 60 (dimOrDefault w)
      omega
    · show ((clampI 5 60 (dimOrDefault h)).toNat : Int) = clampI 5 60 (dimOrDefault h)
      omega
    · intro v hv hv0
      subst hv
      show ((clampI 5 60 (dimOrDefault (some v))).toNat : Int) = clampI 5 60 v
      have hd : dimOrDefault (some v) = v := by
        simp only [dimOrDefault, if_neg hv0]
      rw [hd]
      have hbv := clampI_bounds 5 60 v (by omega)
      omega
    · intro hw
      show (clampI 5 60 (dimOrDefault w)).toNat = 20
      rcases hw with hw | hw <;> subst hw <;> decide
    · intro hw
      subst hw
      show (clampI 5 60 (dimOrDefault (some 100))).toNat = 60
      decide
    · show 5 ≤ (clampI 5 60 (dimOrDefault w)).toNat
      omega
    · show (clampI 5 60 (dimOrDefault w)).toNat ≤ 60
      omega
    · show 5 ≤ (clampI 5 60 (dimOrDefault h)).toNat
      omega
    · show (clampI 5 60 (dimOrDefault h)).toNat ≤ 60
      omega
    · exact List.length_replicate _ _
    · intro row hrow
      rw [List.eq_of_mem_replicate hrow]
      exact ⟨List.length_replicate _ _, fun cell hc => List.eq_of_mem_replicate hc⟩

/-- C8 witness: `"Rin"` is rejected; the GM's 100×7 request becomes
60×7 with a fresh open grid and no tokens. -/
theorem map_init_spec_witness :
    mapInit baseLobby "Rin" (some 100) (some 7) = (baseLobby, [Eff.errorTo "GM only."]) ∧
    (mapInit baseLobby "Gm" (some 100) (some 7)).1.map.w = 60 ∧
    (mapInit baseLobby "Gm" (some 100) (some 7)).1.map.tokens = [] := by
  have h1 := (map_init_spec baseLobby "Rin").1 (by decide) (some 100) (some 7)
  have h2 := (map_init_spec baseLobby "Gm").2 (by decide) (some 100) (some 7)
  exact ⟨h1, h2.2.2.2.1 rfl, h2.2.2.2.2.2.2.2⟩

end DnD

namespace DnD

-- ===== Supporting lemmas: encounter order =====

theorem findIdx?_found {α : Type} (p : α → Bool) :
    ∀ (l : List α) (i : Nat), l.findIdx? p = some i →
      ∃ a, l.get? i = some a ∧ p a = true := by
  intro l
  induction l with
  | nil => intro i h; simp [List.findIdx?] at h
  | cons x xs ih =>
    intro i h
    rw [List.findIdx?_cons] at h
    by_cases hp : p x = true
    · rw [if_pos hp] at h
      injection h with h
      subst h
      exact ⟨x, rfl, hp⟩
    · rw [if_neg hp, List.findIdx?_succ] at h
      cases hfi : xs.findIdx? p with
      | none => rw [hfi] at h; simp at h
      | some j =>
        rw [hfi] at h
        simp at h
        obtain ⟨a, ha, hpa⟩ := ih j hfi
        subst h
        exact ⟨a, by simpa using ha, hpa⟩

theorem set_get?_eq {α : Type} :
    ∀ (l : List α) (i : Nat) (a : α), l.get? i = some a → l.set i a = l := by
  intro l
  induction l with
  | nil => intro i a h; cases i <;> exact Option.noConfusion h
  | cons x xs ih =>
    intro i a h
    cases i with
    | zero =>
      injection h with h
      subst h
      rfl
    | succ j =>
      show x :: xs.set j a = x :: xs
      rw [ih j a (by simpa using h)]

theorem setInitOrder_sorted (order : List EncEntry) (nm : String) (v : Int) :
    List.Sorted (fun a b : EncEntry => b.init ≤ a.init) (setInitOrder order nm v) :=
  List.sorted_insertionSort _ _

theorem setInitOrder_perm_update (order : List EncEntry) (nm : String) (v : Int)
    (hmem : nm ∈ order.map EncEntry.name) :
    ((setInitOrder order nm v).map EncEntry.name).Perm (order.map EncEntry.name) ∧
    (setInitOrder order nm v).length = order.length := by
  unfold setInitOrder
  cases hfi : order.findIdx? (fun o => decide (o.name = nm)) with
  | none =>
    exfalso
    rcases List.mem_map.mp hmem with ⟨a, ha, hna⟩
    have := List.findIdx?_eq_none_iff.mp hfi a ha
    rw [decide_eq_false_iff_not] at this
    exact this hna
  | some i =>
    dsimp only
    obtain ⟨a, hget, hpa⟩ := findIdx?_found _ order i hfi
    rw [decide_eq_true_eq] at hpa
    have hnames : (order.set i ⟨nm, v⟩).map EncEntry.name = order.map EncEntry.name := by
      rw [List.map_set]
      exact set_get?_eq _ i nm (by rw [List.get?_map, hget]; simp [hpa])
    constructor
    · rw [← hnames]
      exact (List.perm_insertionSort _ _).map EncEntry.name
    · rw [(List.perm_insertionSort _ _).length_eq, List.length_set]

theorem setInitOrder_perm_append (order : List EncEntry) (nm : String) (v : Int)
    (hmem : ¬ nm ∈ order.map EncEntry.name) :
    ((setInitOrder order nm v).map EncEntry.name).Perm
      (order.map EncEntry.name ++ [nm]) := by
  unfold setInitOrder
  cases hfi : order.findIdx? (fun o => decide (o.name = nm)) with
  | some i =>
    exfalso
    obtain ⟨a, hget, hpa⟩ := findIdx?_found _ order i hfi
    rw [decide_eq_true_eq] at hpa
    exact hmem (List.mem_map.mpr ⟨a, List.get?_mem hget, hpa⟩)
  | none =>
    dsimp only
    have := (List.perm_insertionSort
      (fun a b : EncEntry => b.init ≤ a.init) (order ++ [⟨nm, v⟩])).map EncEntry.name
    rwa [List.map_append] at this

theorem setInitOrder_mem (order : List EncEntry) (nm : String) (v : Int) :
    (⟨nm, v⟩ : EncEntry) ∈ setInitOrder order nm v := by
  unfold setInitOrder
  cases hfi : order.findIdx? (fun o => decide (o.name = nm)) with
  | some i =>
    dsimp only
    rw [(List.perm_insertionSort _ _).mem_iff]
    obtain ⟨a, hget, _⟩ := findIdx?_found _ order i hfi
    have hi : i < order.length := by
      by_contra hge
      rw [List.get?_eq_none.mpr (by omega)] at hget
      exact Option.noConfusion hget
    exact List.mem_set order i hi _
  | none =>
    dsimp only
    rw [(List.perm_insertionSort _ _).mem_iff]
    exact List.mem_append_right _ (List.mem_singleton_self _)

theorem setInitOrder_nodup (order : List EncEntry) (nm : String) (v : Int)
    (h : (order.map EncEntry.name).Nodup) :
    ((setInitOrder order nm v).map EncEntry.name).Nodup := by
  by_cases hmem : nm ∈ order.map EncEntry.name
  · exact ((setInitOrder_perm_update order nm v hmem).1.nodup_iff).mpr h
  · refine ((setInitOrder_perm_append order nm v hmem).nodup_iff).mpr ?_
    rw [List.nodup_append]
    exact ⟨h, List.nodup_singleton nm, by simpa [List.disjoint_singleton] using hmem⟩

theorem setInitOrder_length_ge (order : List EncEntry) (nm : String) (v : Int) :
    order.length ≤ (setInitOrder order nm v).length := by
  unfold setInitOrder
  cases hfi : order.findIdx? (fun o => decide (o.name = nm)) with
  | some i =>
    dsimp only
    rw [(List.perm_insertionSort _ _).length_eq, List.length_set]
  | none =>
    dsimp only
    rw [(List.perm_insertionSort _ _).length_eq, List.length_append]
    omega

end DnD

namespace DnD

/-- C9: every slash command — in particular `/startencounter`, `/setinit`,
`/next` and `/endencounter` — preserves the encounter invariant: combatant
names stay pairwise distinct, the order stays sorted descending by
initiative, and `turnIndex` indexes into a non-empty order.  The
`/setinit` upsert keeps the name multiset (updating in place) when the
name exists and appends it otherwise, always leaving the new entry
present and the result sorted; `/next` by the GM on an active, non-empty
encounter increments `turnIndex` modulo the order length. -/
theorem encounter_invariant :
    (∀ (rand : Nat → Nat) (fid : String) (L : Lobby) (sid u line : String),
       encInvS L.encounter →
       encInvS (handleCommand rand fid L sid u line).1.encounter ∧
       ((handleCommand rand fid L sid u line).1.encounter.order ≠ [] →
          (handleCommand rand fid L sid u line).1.encounter.turnIndex <
            (handleCommand rand fid L sid u line).1.encounter.order.length)) ∧
    (∀ (order : List EncEntry) (nm : String) (v : Int),
       List.Sorted (fun a b : EncEntry => b.init ≤ a.init) (setInitOrder order nm v) ∧
       (⟨nm, v⟩ : EncEntry) ∈ setInitOrder order nm v ∧
       (nm ∈ order.map EncEntry.name →
          ((setInitOrder order nm v).map EncEntry.name).Perm (order.map EncEntry.name) ∧
          (setInitOrder order nm v).length = order.length) ∧
       (¬ nm ∈ order.map EncEntry.name →
          ((setInitOrder order nm v).map EncEntry.name).Perm
            (order.map EncEntry.name ++ [nm])) ∧
       ((order.map EncEntry.name).Nodup →
          ((setInitOrder order nm v).map EncEntry.name).Nodup)) ∧
    (∀ (rand : Nat → Nat) (fid : String) (L : Lobby) (sid u line : String),
       cmdOf line = "next" → isGM L u → L.encounter.active = true →
       ¬ L.encounter.order.length = 0 →
       (handleCommand rand fid L sid u line).1.encounter.turnIndex =
         (L.encounter.turnIndex + 1) % L.encounter.order.length) := by
  have hclaim : ∀ e : Encounter, encInvS e → (e.order ≠ [] → e.turnIndex < e.order.length) := by
    intro e he hne
    have h2 := he.2.2
    have h1 : 1 ≤ e.order.length := by
      cases ho : e.order with
      | nil => exact absurd ho hne
      | cons a l => simp
    rwa [Nat.max_eq_right h1] at h2
  refine ⟨?_, ?_, ?_⟩
  · intro rand fid L sid u line hinv
    suffices h' : encInvS (handleCommand rand fid L sid u line).1.encounter from
      ⟨h', hclaim _ h'⟩
    unfold handleCommand
    dsimp only
    repeat' split
    all_goals try exact hinv
    all_goals try exact ⟨by simp, List.sorted_nil, lt_of_lt_of_le one_pos (le_max_left 1 _)⟩
    all_goals first
      | (refine ⟨setInitOrder_nodup _ _ _ hinv.1, setInitOrder_sorted _ _ _, ?_⟩
         exact lt_of_lt_of_le hinv.2.2
           (max_le_max (le_refl 1) (setInitOrder_length_ge _ _ _)))
      | (refine ⟨hinv.1, hinv.2.1, ?_⟩
         first
           | exact hinv.2.2
           | (rename_i hcond
              have hlen : ¬ L.encounter.order.length = 0 := fun h0 => hcond (Or.inr h0)
              exact lt_of_lt_of_le (Nat.mod_lt _ (by omega)) (le_max_right 1 _)))
  · intro order nm v
    exact ⟨setInitOrder_sorted order nm v, setInitOrder_mem order nm v,
           setInitOrder_perm_update order nm v, setInitOrder_perm_append order nm v,
           setInitOrder_nodup order nm v⟩
  · intro rand fid L sid u line hcmd hgm hact hlen
    unfold handleCommand
    dsimp only
    split
    all_goals try exact absurd hcmd ‹cmdOf line = "next" → False›
    all_goals rename_i heq
    all_goals rw [hcmd] at heq
    all_goals try exact absurd heq (by decide)
    · rw [if_neg (show ¬ ¬ decide (isGM L u) = true by simp [hgm]),
        if_neg (show ¬ (¬ L.encounter.active = true ∨ L.encounter.order.length = 0) by
          rw [hact]
          simp [hlen])]

end DnD

namespace DnD

/-- C9 witness: a GM `/setinit` on a live two-combatant encounter keeps
the invariant, and `/next` advances the turn pointer modulo the order
length. -/
theorem encounter_invariant_witness :
    encInvS (handleCommand (fun _ => 0) "f" encLobby "k1" "Gm" "/setinit Tor 15").1.encounter ∧
    (handleCommand (fun _ => 0) "f" encLobby "k1" "Gm" "/next").1.encounter.turnIndex =
      (encLobby.encounter.turnIndex + 1) % encLobby.encounter.order.length := by
  refine ⟨(encounter_invariant.1 (fun _ => 0) "f" encLobby "k1" "Gm" "/setinit Tor 15" ?_).1,
          encounter_invariant.2.2 (fun _ => 0) "f" encLobby "k1" "Gm" "/next" ?_ ?_ ?_ ?_⟩
  · exact ⟨by decide, by decide, by decide⟩
  · decide
  · decide
  · rfl
  · decide

end DnD
